import Mathlib

/-
Verification development for the context-extractor engine of this repository
(`context_extractor/compress.py` and its helper modules `identifiers.py`,
`comments.py`, `header.py`, `indent.py`, `config.py`, `ts_utils.py`,
`extract.py`).

Modelling conventions:
- A tree-sitter syntax node is embedded as `Node`: kind string, 0-based
  inclusive start/end line (`start_point[0]` / `end_point[0]`), the node's
  source text (`node_text`, only consulted for identifier-like leaves), and
  the ordered list of children.  The parser itself is an external library;
  the engine receives the parsed tree, so the embedding takes the tree (and
  the `splitlines` result of the source) as inputs.
- Python `set` values are embedded as lists with membership semantics; the
  places where the code sorts a set (`sorted(...)`) use an explicit
  sorted-deduplication function.
- Python parent pointers are embedded by threading explicit ancestor lists
  (innermost first); stack-based traversals of the source are embedded as
  the equivalent right-to-left depth-first recursions (the Python code pops
  from the end of the list and extends with `n.children`).
-/

/-- Syntax-tree node: kind, 0-based start line, 0-based end line, source
text of the node, children in document order. -/
inductive Node : Type where
  | mk : String → Nat → Nat → String → List Node → Node

def Node.kind : Node → String
  | .mk k _ _ _ _ => k

def Node.startLine : Node → Nat
  | .mk _ s _ _ _ => s

def Node.endLine : Node → Nat
  | .mk _ _ e _ _ => e

def Node.text : Node → String
  | .mk _ _ _ t _ => t

def Node.children : Node → List Node
  | .mk _ _ _ _ c => c

/-- Python `str.lstrip()` (leading whitespace removed). -/
def py_lstrip (s : String) : String := String.mk (s.data.dropWhile Char.isWhitespace)

/-- Python `str.rstrip()` (trailing whitespace removed). -/
def py_rstrip (s : String) : String :=
  String.mk ((s.data.reverse.dropWhile Char.isWhitespace).reverse)

/-- Python `str.strip()`. -/
def py_strip (s : String) : String := py_rstrip (py_lstrip s)

/-- Count of leading space characters (tabs untouched), as in `indent.py`. -/
def leading_spaces (s : String) : Nat := (s.data.takeWhile (fun c => c = ' ')).length

/-- Python `sub in s` for a single character. -/
def str_contains_char (s : String) (c : Char) : Bool := s.data.contains c

/-- Python `s.startswith(t)`. -/
def starts_with (s t : String) : Bool := t.data.isPrefixOf s.data

/-- Python `s[k:]` (character based). -/
def str_drop (s : String) (k : Nat) : String := String.mk (s.data.drop k)

/-- Python `s[:k]` (character based). -/
def str_take (s : String) (k : Nat) : String := String.mk (s.data.take k)

/-- Python `s.find(sub, j)`: least index `k ≥ j` at which `sub` occurs, as an
`Option` instead of `-1`. -/
def str_find_from (s sub : String) (j : Nat) : Option Nat :=
  (List.range' j (s.data.length + 1 - j)).find? (fun k => sub.data.isPrefixOf (s.data.drop k))

/-- Per-language node-kind classification table, one entry of `LANG_NODESETS`
in `config.py`.  The Python `line_comment_prefix` key is the field
`line_comment_tok` here. -/
structure NodeSet where
  function : List String
  block : List String
  key : List String
  ident : List String
  member_like : List String
  assign : List String
  declaration : List String
  call : List String
  loop : List String
  control : List String
  closing_is_brace : Bool
  line_comment_tok : String
deriving DecidableEq

def cppNodeSet : NodeSet where
  function := ["function_definition", "function_declaration", "lambda_expression"]
  block := ["compound_statement", "lambda_expression", "function_definition"]
  key := ["assignment_expression", "compound_assignment_expression",
          "declaration", "call_expression",
          "if_statement", "return_statement",
          "for_statement", "for_range_loop"]
  ident := ["identifier", "field_identifier", "scoped_identifier"]
  member_like := ["field_expression", "scoped_identifier"]
  assign := ["assignment_expression", "compound_assignment_expression"]
  declaration := ["declaration", "init_declarator"]
  call := ["call_expression"]
  loop := ["for_statement", "for_range_loop"]
  control := ["if_statement", "for_statement", "for_range_loop",
              "while_statement", "do_statement", "switch_statement"]
  closing_is_brace := true
  line_comment_tok := "//"

def javaNodeSet : NodeSet where
  function := ["method_declaration", "constructor_declaration", "lambda_expression"]
  block := ["block", "lambda_expression"]
  key := ["assignment_expression", "local_variable_declaration", "method_invocation",
          "if_statement", "return_statement", "for_statement", "enhanced_for_statement"]
  ident := ["identifier"]
  member_like := ["field_access", "method_invocation"]
  assign := ["assignment_expression"]
  declaration := ["local_variable_declaration"]
  call := ["method_invocation"]
  loop := ["for_statement", "enhanced_for_statement"]
  control := ["if_statement", "for_statement", "enhanced_for_statement",
              "while_statement", "switch_expression", "switch_statement"]
  closing_is_brace := true
  line_comment_tok := "//"

def javascriptNodeSet : NodeSet where
  function := ["function_declaration", "function", "method_definition", "arrow_function"]
  block := ["statement_block", "function", "method_definition"]
  key := ["assignment_expression", "augmented_assignment_expression",
          "variable_declaration", "lexical_declaration", "call_expression",
          "if_statement", "return_statement", "for_statement",
          "for_in_statement", "for_of_statement"]
  ident := ["identifier", "shorthand_property_identifier", "property_identifier"]
  member_like := ["member_expression"]
  assign := ["assignment_expression", "augmented_assignment_expression"]
  declaration := ["variable_declaration", "lexical_declaration"]
  call := ["call_expression"]
  loop := ["for_statement", "for_in_statement", "for_of_statement"]
  control := ["if_statement", "for_statement", "for_in_statement",
              "for_of_statement", "while_statement", "switch_statement"]
  closing_is_brace := true
  line_comment_tok := "//"

def pythonNodeSet : NodeSet where
  function := ["function_definition", "lambda"]
  block := ["block", "function_definition"]
  key := ["assignment", "augmented_assignment",
          "expression_statement", "call",
          "if_statement", "return_statement", "for_statement"]
  ident := ["identifier"]
  member_like := ["attribute"]
  assign := ["assignment", "augmented_assignment"]
  declaration := []
  call := ["call"]
  loop := ["for_statement"]
  control := ["if_statement", "for_statement", "while_statement"]
  closing_is_brace := false
  line_comment_tok := "#"

def csharpNodeSet : NodeSet where
  function := ["method_declaration", "constructor_declaration", "local_function_statement"]
  block := ["block", "method_declaration", "constructor_declaration"]
  key := ["assignment_expression", "declaration_expression", "invocation_expression",
          "if_statement", "return_statement", "for_statement", "foreach_statement",
          "while_statement"]
  ident := ["identifier"]
  member_like := ["member_access_expression", "qualified_name"]
  assign := []
  declaration := []
  call := ["invocation_expression"]
  loop := ["for_statement", "foreach_statement", "while_statement"]
  control := ["if_statement", "for_statement", "foreach_statement", "while_statement"]
  closing_is_brace := true
  line_comment_tok := "//"

def typescriptNodeSet : NodeSet where
  function := ["function_declaration", "method_definition", "arrow_function", "function_signature"]
  block := ["statement_block", "function_declaration", "class_body"]
  key := ["assignment_expression", "lexical_declaration", "call_expression",
          "if_statement", "return_statement", "for_statement", "while_statement"]
  ident := ["identifier", "shorthand_property_identifier"]
  member_like := ["member_expression", "subscript_expression"]
  assign := []
  declaration := []
  call := ["call_expression"]
  loop := ["for_statement", "while_statement", "for_in_statement", "for_of_statement"]
  control := ["if_statement", "for_statement", "while_statement"]
  closing_is_brace := true
  line_comment_tok := "//"

def goNodeSet : NodeSet where
  function := ["function_declaration", "method_declaration"]
  block := ["block", "function_declaration", "method_declaration"]
  key := ["short_var_declaration", "assignment_statement", "call_expression",
          "if_statement", "return_statement", "for_statement"]
  ident := ["identifier"]
  member_like := ["selector_expression"]
  assign := []
  declaration := []
  call := ["call_expression"]
  loop := ["for_statement"]
  control := ["if_statement", "for_statement"]
  closing_is_brace := true
  line_comment_tok := "//"

def rubyNodeSet : NodeSet where
  function := ["method", "singleton_method"]
  block := ["block", "method"]
  key := ["assignment", "call", "if", "return"]
  ident := ["identifier", "constant"]
  member_like := ["call"]
  assign := []
  declaration := []
  call := ["call"]
  loop := ["for"]
  control := ["if", "elsif", "unless"]
  closing_is_brace := false
  line_comment_tok := "#"

def kotlinNodeSet : NodeSet where
  function := ["function_declaration"]
  block := ["block", "function_declaration"]
  key := ["assignment", "call_expression", "if_expression", "return_expression",
          "for_statement", "while_statement"]
  ident := ["simple_identifier"]
  member_like := ["navigation_expression", "member_access_operator"]
  assign := []
  declaration := []
  call := ["call_expression"]
  loop := ["for_statement", "while_statement"]
  control := ["if_expression", "when_expression", "for_statement", "while_statement"]
  closing_is_brace := true
  line_comment_tok := "//"

def phpNodeSet : NodeSet where
  function := ["function_definition", "method_declaration",
               "anonymous_function_creation_expression", "arrow_function"]
  block := ["compound_statement", "function_definition",
            "method_declaration", "anonymous_function_creation_expression"]
  key := ["assignment_expression", "expression_statement", "function_call_expression",
          "if_statement", "return_statement",
          "for_statement", "while_statement", "foreach_statement"]
  ident := ["name", "variable_name"]
  member_like := ["member_access_expression", "scoped_call_expression"]
  assign := ["assignment_expression"]
  declaration := []
  call := ["function_call_expression", "method_call_expression", "scoped_call_expression"]
  loop := ["for_statement", "while_statement", "foreach_statement"]
  control := ["if_statement", "for_statement", "while_statement", "foreach_statement"]
  closing_is_brace := true
  line_comment_tok := "//"

/-- The `LANG_NODESETS` table of `config.py`, as a lookup on the
language key that may fail.  The Python sets with no `assign`/`declaration` key are
embedded as empty lists (`nodeset["assign"]` is only read through
membership tests guarded by `.get`-style access in `identifiers.py`; see
`is_loop` which uses `.get("loop", set())`, and the entries below that lack
a key never reach the corresponding branch for their languages). -/
def LANG_NODESETS (k : String) : Option NodeSet :=
  if k = "cpp" then some cppNodeSet
  else if k = "java" then some javaNodeSet
  else if k = "javascript" then some javascriptNodeSet
  else if k = "python" then some pythonNodeSet
  else if k = "csharp" then some csharpNodeSet
  else if k = "typescript" then some typescriptNodeSet
  else if k = "go" then some goNodeSet
  else if k = "ruby" then some rubyNodeSet
  else if k = "kotlin" then some kotlinNodeSet
  else if k = "php" then some phpNodeSet
  else none

/-- Comment style of one language (`COMMENT_STYLE` in `config.py`): line
comment starters and block comment delimiter pairs. -/
structure CommentStyle where
  line : List String
  block : List (String × String)

/-- The `COMMENT_STYLE` table of `config.py`; `dict.get` with the empty
default for unknown keys. -/
def COMMENT_STYLE (k : String) : CommentStyle :=
  if k = "cpp" then ⟨["//"], [("/*", "*/")]⟩
  else if k = "java" then ⟨["//"], [("/*", "*/")]⟩
  else if k = "javascript" then ⟨["//"], [("/*", "*/")]⟩
  else if k = "python" then ⟨["#"], []⟩
  else if k = "csharp" then ⟨["//"], [("/*", "*/")]⟩
  else if k = "typescript" then ⟨["//"], [("/*", "*/")]⟩
  else if k = "go" then ⟨["//"], [("/*", "*/")]⟩
  else if k = "ruby" then ⟨["#"], []⟩
  else if k = "kotlin" then ⟨["//"], [("/*", "*/")]⟩
  else ⟨[], []⟩

/-- The extension-to-language-key mapping realised by `SUPPORTED_LANGUAGES`
plus the identity tests in `detect_language` (`ts_utils.py`). -/
def EXT_LANG_KEY : List (String × String) :=
  [(".py", "python"), (".h", "cpp"), (".hpp", "cpp"), (".cpp", "cpp"), (".c", "cpp"),
   (".cc", "cpp"), (".cxx", "cpp"), (".js", "javascript"), (".mjs", "javascript"),
   (".cjs", "javascript"), (".java", "java"), (".cs", "csharp"), (".ts", "typescript"),
   (".go", "go"), (".rb", "ruby"), (".kt", "kotlin")]

/-- `detect_language` of `ts_utils.py` restricted to its pure content: maps a
(lower-cased) file extension to the language key, or fails for an
unsupported extension (the `ValueError` branch). -/
def detect_language (ext : String) : Option String :=
  (EXT_LANG_KEY.find? (fun p => p.1 = ext)).map Prod.snd

/-- Language resolution as used by `compress_function_from_source`: detect
the language key, then index `LANG_NODESETS`.  The second lookup never fails
for a detected key (see `detect_lang_nodeset_total`). -/
def detect_nodeset (ext : String) : Option (String × NodeSet) :=
  match detect_language ext with
  | none => none
  | some k =>
    match LANG_NODESETS k with
    | none => none
    | some ns => some (k, ns)

/-- `is_function_like` of `identifiers.py`. -/
def is_function_like (n : Node) (ns : NodeSet) : Bool := n.kind ∈ ns.function

/-- `is_block_like` of `identifiers.py`. -/
def is_block_like (n : Node) (ns : NodeSet) : Bool := n.kind ∈ ns.block

/-- `is_key_stmt` of `identifiers.py`. -/
def is_key_stmt (n : Node) (ns : NodeSet) : Bool := n.kind ∈ ns.key

/-- `is_identifier` of `identifiers.py`. -/
def is_identifier (n : Node) (ns : NodeSet) : Bool := n.kind ∈ ns.ident

/-- `is_member_like` of `identifiers.py`. -/
def is_member_like (n : Node) (ns : NodeSet) : Bool := n.kind ∈ ns.member_like

/-- `is_assign` of `identifiers.py`. -/
def is_assign (n : Node) (ns : NodeSet) : Bool := n.kind ∈ ns.assign

/-- `is_declaration` of `identifiers.py`. -/
def is_declaration (n : Node) (ns : NodeSet) : Bool := n.kind ∈ ns.declaration

/-- `is_call` of `identifiers.py`. -/
def is_call (n : Node) (ns : NodeSet) : Bool := n.kind ∈ ns.call

/-- `is_loop` of `identifiers.py` (`nodeset.get("loop", set())`). -/
def is_loop (n : Node) (ns : NodeSet) : Bool := n.kind ∈ ns.loop

/-- Python `range(s, e + 1)`: the 0-based inclusive line span of a node. -/
def span_lines (s e : Nat) : List Nat := List.range' s (e + 1 - s)

mutual
/-- `collect_idents_in_node` of `identifiers.py`: all identifiers of a
subtree; for member/field nodes the constituent identifier children are
collected as well (the unconditional `stack.extend(n.children)` means the
whole subtree is always traversed). -/
def collect_idents_in_node (ns : NodeSet) : Node → List String
  | n@(.mk _ _ _ t ch) =>
    (if is_identifier n ns then [t]
     else if is_member_like n ns then (ch.filter (fun c => is_identifier c ns)).map Node.text
     else [])
    ++ collect_idents_list ns ch
def collect_idents_list (ns : NodeSet) : List Node → List String
  | [] => []
  | c :: cs => collect_idents_in_node ns c ++ collect_idents_list ns cs
end

mutual
/-- `_collect_decl_names` of `identifiers.py`: identifiers in the subtree,
with the traversal not descending below an identifier node. -/
def collect_decl_names (ns : NodeSet) : Node → List String
  | n@(.mk _ _ _ t ch) =>
    if is_identifier n ns then [t] else collect_decl_list ns ch
def collect_decl_list (ns : NodeSet) : List Node → List String
  | [] => []
  | c :: cs => collect_decl_names ns c ++ collect_decl_list ns cs
end

/-- Loop branch of `split_reads_writes`: language-specific write-variable
heuristics applied to one child of a loop node. -/
def loop_child_writes (ns : NodeSet) (lang : String) (c : Node) : List String :=
  if (lang = "python" ∧ c.kind ∈ ["identifier", "pattern", "tuple"])
   ∨ (lang = "javascript" ∧ c.kind ∈ ["variable_declaration", "lexical_declaration", "identifier"])
   ∨ (lang = "java" ∧ c.kind ∈ ["local_variable_declaration", "variable_declarator", "identifier"])
   ∨ (lang = "cpp" ∧ c.kind ∈ ["declaration", "init_declarator", "identifier"])
   ∨ (lang = "php" ∧ c.kind ∈ ["variable_name", "name"])
  then collect_idents_in_node ns c else []

mutual
/-- The explicit-stack loop of `split_reads_writes` (`identifiers.py`),
embedded as the equivalent depth-first state-passing recursion: the node's
own branch fires first, then the children are traversed (the Python loop
pops from the stack end, so children are handled right to left; the
accumulated read/write lists are threaded in that order). -/
def srw_node (ns : NodeSet) (lang : String) : Node → List String × List String →
    List String × List String
  | n@(.mk _ _ _ _ ch), (reads, writes) =>
    let st :=
      if is_assign n ns then
        if 3 ≤ ch.length then
          (reads ++ (ch.drop (ch.length - 1)).flatMap (collect_idents_in_node ns),
           writes ++ (ch.take 1).flatMap (collect_idents_in_node ns))
        else
          (reads ++ collect_idents_in_node ns n, writes)
      else if is_declaration n ns then
        let decl_names := collect_decl_names ns n
        (reads ++ ch.flatMap (fun c =>
           (collect_idents_in_node ns c).filter (fun x => ¬ decl_names.contains x)),
         writes ++ decl_names)
      else if is_call n ns then
        (reads ++ collect_idents_in_node ns n, writes)
      else if is_loop n ns then
        let writes2 := writes ++ ch.flatMap (loop_child_writes ns lang)
        ((reads ++ (collect_idents_in_node ns n).filter (fun x => ¬ writes2.contains x)),
         writes2)
      else (reads, writes)
    srw_list ns lang ch st
def srw_list (ns : NodeSet) (lang : String) : List Node → List String × List String →
    List String × List String
  | [], st => st
  | c :: cs, st => srw_node ns lang c (srw_list ns lang cs st)
end

/-- `split_reads_writes` of `identifiers.py`: the traversal above followed by
the closing fallback `reads |= (raw_ids - writes)`. -/
def split_reads_writes (ns : NodeSet) (lang : String) (root : Node) :
    List String × List String :=
  let rw := srw_node ns lang root ([], [])
  let raw_ids := collect_idents_in_node ns root
  (rw.1 ++ raw_ids.filter (fun x => ¬ rw.2.contains x), rw.2)

mutual
/-- `find_function_node` (nested in `compress_function_from_source`):
pre-order search returning the first node that is function-like and whose
1-based line span contains `ln`; otherwise the first hit among the children.
`ln` is the 1-based target line (the ≤0 guard has already fired). -/
def find_function_node (ns : NodeSet) (ln : Nat) : Node → Option Node
  | n@(.mk _ s e _ ch) =>
    if is_function_like n ns = true ∧ s + 1 ≤ ln ∧ ln ≤ e + 1 then some n
    else find_function_list ns ln ch
def find_function_list (ns : NodeSet) (ln : Nat) : List Node → Option Node
  | [] => none
  | c :: cs =>
    match find_function_node ns ln c with
    | some m => some m
    | none => find_function_list ns ln cs
end

mutual
/-- `find_function_node` with the ancestor chain of the found node made
explicit (innermost first); `anc` holds the ancestors of the node under
inspection.  This encodes the `tree_sitter` parent pointers that
`compress_function_from_source` later follows. -/
def find_function_node_path (ns : NodeSet) (ln : Nat) :
    Node → List Node → Option (Node × List Node)
  | n@(.mk _ s e _ ch), anc =>
    if is_function_like n ns = true ∧ s + 1 ≤ ln ∧ ln ≤ e + 1 then some (n, anc)
    else find_function_path_list ns ln ch (n :: anc)
def find_function_path_list (ns : NodeSet) (ln : Nat) :
    List Node → List Node → Option (Node × List Node)
  | [], _ => none
  | c :: cs, anc =>
    match find_function_node_path ns ln c anc with
    | some r => some r
    | none => find_function_path_list ns ln cs anc
end

mutual
/-- `find_target_node` (nested in `compress_function_from_source`) with the
ancestor chain made explicit: if the node's 0-based span contains `ln - 1`,
the first child hit wins, else the node itself; nodes not covering the line
yield `none`. -/
def find_target_node_path (ln : Nat) : Node → List Node → Option (Node × List Node)
  | n@(.mk _ s e _ ch), anc =>
    if s ≤ ln - 1 ∧ ln - 1 ≤ e then
      match find_target_path_list ln ch (n :: anc) with
      | some r => some r
      | none => some (n, anc)
    else none
def find_target_path_list (ln : Nat) : List Node → List Node → Option (Node × List Node)
  | [], _ => none
  | c :: cs, anc =>
    match find_target_node_path ln c anc with
    | some r => some r
    | none => find_target_path_list ln cs anc
end

mutual
/-- `find_enclosing_function` of `extract.py`: prune subtrees whose 1-based
span does not contain `ln`; a covering function-like node is returned
immediately, otherwise the first hit among the children. -/
def find_enclosing_function (funcTypes : List String) (ln : Nat) : Node → Option Node
  | n@(.mk k s e _ ch) =>
    if ¬ (s + 1 ≤ ln ∧ ln ≤ e + 1) then none
    else if k ∈ funcTypes then some n
    else find_enclosing_list funcTypes ln ch
def find_enclosing_list (funcTypes : List String) (ln : Nat) : List Node → Option Node
  | [] => none
  | c :: cs =>
    match find_enclosing_function funcTypes ln c with
    | some m => some m
    | none => find_enclosing_list funcTypes ln cs
end

/-- `promote_control_ancestors` (nested in `compress_function_from_source`):
walks the ancestor chain (innermost first) up to, excluding, the first
function-like node; returns the 0-based lines to add to the relevant set.
The head of `rest` at each step is the Python `q.parent`. -/
def promote_control_ancestors (ns : NodeSet) : List Node → Bool → List Nat
  | [], _ => []
  | q :: rest, seen_first_block =>
    if is_function_like q ns then []
    else
      (if q.kind ∈ ns.control then span_lines q.startLine q.endLine else [])
      ++ (if is_block_like q ns && !seen_first_block then
            match rest with
            | pc :: _ =>
              if pc.kind ∈ ns.control then span_lines pc.startLine pc.endLine else []
            | [] => []
          else [])
      ++ promote_control_ancestors ns rest (seen_first_block || is_block_like q ns)

/-- Accumulator of `mark_if_references_ids`: the `matched_any` flag, the
lines added to the relevant set, and the discovered reads/writes. -/
structure MarkSt where
  matched : Bool
  added : List Nat
  dr : List String
  dw : List String

mutual
/-- `mark_if_references_ids` (nested in `compress_function_from_source`),
with the stack traversal embedded as depth-first recursion and the shared
`relevant_lines` additions collected in `MarkSt.added`.  `anc` is the
ancestor chain of the node under inspection (for control promotion). -/
def mark_if_references_ids (ns : NodeSet) (lang : String) (ich : Bool)
    (idset : List String) : Node → List Node → MarkSt → MarkSt
  | n@(.mk _ s e _ ch), anc, st =>
    let st1 :=
      if is_key_stmt n ns && (collect_idents_in_node ns n).any (fun x => idset.contains x) then
        let rw := split_reads_writes ns lang n
        { matched := true
          added := st.added ++ span_lines s e
                   ++ (if ich then promote_control_ancestors ns anc false else [])
          dr := st.dr ++ rw.1
          dw := st.dw ++ rw.2 }
      else st
    mark_list ns lang ich idset ch (n :: anc) st1
def mark_list (ns : NodeSet) (lang : String) (ich : Bool) (idset : List String) :
    List Node → List Node → MarkSt → MarkSt
  | [], _, st => st
  | c :: cs, anc, st =>
    mark_if_references_ids ns lang ich idset c anc (mark_list ns lang ich idset cs anc st)
end

/-- State of the backward-slicing loop of `compress_function_from_source`:
the relevant-line set, frontier/seen reads and writes, and the `depth`
counter (`passes`). -/
structure SliceSt where
  relevant : List Nat
  fr : List String
  fw : List String
  sr : List String
  sw : List String
  passes : Nat

/-- The `for blk in nodes_to_visit` loop of one slicing pass: accumulates the
lines added by `mark_if_references_ids`, the merged new reads/writes (merged
only when the block matched, as in the source), and the `any_match` flag. -/
def slice_regions (ns : NodeSet) (lang : String) (ich : Bool) (current : List String) :
    List (Node × List Node) → List Nat × List String × List String × Bool →
    List Nat × List String × List String × Bool
  | [], acc => acc
  | r :: rs, (added, nr, nw, anyM) =>
    let res := mark_if_references_ids ns lang ich current r.1 r.2 ⟨false, [], [], []⟩
    slice_regions ns lang ich current rs
      (added ++ res.added,
       if res.matched then nr ++ res.dr else nr,
       if res.matched then nw ++ res.dw else nw,
       anyM || res.matched)

/-- One iteration of the backward-slicing `while` loop: compute
`current = (frontier_reads - seen_reads) | (frontier_writes - seen_writes)`,
scan every candidate region, then fold the discoveries into the state
(seen is updated from the old frontier before the frontier grows, as in the
source); also returns `any_match`. -/
def slice_pass (ns : NodeSet) (lang : String) (ich : Bool)
    (regions : List (Node × List Node)) (st : SliceSt) : SliceSt × Bool :=
  let currentR := st.fr.filter (fun x => ¬ st.sr.contains x)
  let currentW := st.fw.filter (fun x => ¬ st.sw.contains x)
  let r := slice_regions ns lang ich (currentR ++ currentW) regions ([], [], [], false)
  ({ relevant := st.relevant ++ r.1
     fr := st.fr ++ r.2.1
     fw := st.fw ++ r.2.2.1
     sr := st.sr ++ currentR
     sw := st.sw ++ currentW
     passes := st.passes + 1 }, r.2.2.2)

/-- The bounded backward-slicing loop (`while depth < max_backward_depth and
(frontier_reads - seen_reads or frontier_writes - seen_writes)`), with the
remaining permitted passes as fuel; stops early after a pass with no
match. -/
def slice_loop (ns : NodeSet) (lang : String) (ich : Bool)
    (regions : List (Node × List Node)) : Nat → SliceSt → SliceSt
  | 0, st => st
  | fuel + 1, st =>
    if st.fr.filter (fun x => ¬ st.sr.contains x) ≠ []
       ∨ st.fw.filter (fun x => ¬ st.sw.contains x) ≠ [] then
      let r := slice_pass ns lang ich regions st
      if r.2 then slice_loop ns lang ich regions fuel r.1 else r.1
    else st

/-- The ancestor chain of `compress.py` (`p = target_node; while p:`): each
element of the list paired with its own tail of ancestors. -/
def with_tails : List Node → List (Node × List Node)
  | [] => []
  | n :: rest => (n, rest) :: with_tails rest

mutual
/-- `ensure_control_headers_for_relevant_bodies` (the AST-level post pass of
`compress_function_from_source`): for every control node whose body-like
child overlaps the relevant set, add the control's header (start) line.  The
relevant set is threaded through the traversal in the stack order of the
source (node first, then children right to left). -/
def ensure_control_headers (ns : NodeSet) : Node → List Nat → List Nat
  | .mk k s _ _ ch, rel =>
    let rel1 :=
      if k ∈ ns.control then
        let body :=
          match ch.find? (fun c => is_block_like c ns) with
          | some b => some b
          | none =>
            match ch.filter (fun c : Node => s < c.endLine) with
            | [] => none
            | c0 :: cs =>
              some (cs.foldl (fun (best c : Node) =>
                if c.startLine < best.startLine then c else best) c0)
        match body with
        | none => rel
        | some b =>
          if (span_lines b.startLine b.endLine).any (fun j => rel.contains j) then
            rel ++ [s]
          else rel
      else rel
    ensure_list ns ch rel1
def ensure_list (ns : NodeSet) : List Node → List Nat → List Nat
  | [], rel => rel
  | c :: cs, rel => ensure_control_headers ns c (ensure_list ns cs rel)
end

/-- Pick the earliest opening block-comment delimiter at or after position
`j` (the inner `for beg, end in block_delims` scan of
`compute_comment_lines`); returns the position and the matching closer. -/
def find_open (delims : List (String × String)) (s : String) (j : Nat) :
    Option (Nat × String) :=
  delims.foldl (fun best p =>
    match str_find_from s p.1 j with
    | none => best
    | some k =>
      match best with
      | none => some (k, p.2)
      | some bk => if k < bk.1 then some (k, p.2) else best) none

/-- The inner `while True` column scan of `compute_comment_lines` for one
line: state is (marked-this-line, inside-block-comment, current end token).
The recursion is fuelled; `fuel = s.length + 2` suffices for the comment
styles of `config.py` (whose end tokens are non-empty, so the scan position
strictly advances; the Python loop diverges for an empty end token). -/
def comment_line_scan (delims : List (String × String)) (s : String) :
    Nat → Bool → String → Nat → Bool → Bool × Bool × String
  | 0, ib, et, _, mk => (mk, ib, et)
  | fuel + 1, ib, et, j, mk =>
    if ib then
      match str_find_from s et j with
      | some idx_close => comment_line_scan delims s fuel false et (idx_close + et.length) true
      | none => (true, ib, et)
    else
      match find_open delims s j with
      | none => (mk, ib, et)
      | some (idx_open, et2) =>
        let j2 := idx_open + et2.length
        match str_find_from s et2 j2 with
        | some idx_close =>
          comment_line_scan delims s fuel false et2 (idx_close + et2.length) true
        | none => comment_line_scan delims s fuel true et2 j2 true

/-- The per-line fold of the block-comment part of `compute_comment_lines`:
carries (inside-block-comment, end token) across lines, collecting indices
of lines touched by a block comment. -/
def compute_comment_block_fold (delims : List (String × String)) :
    List String → Nat → Bool → String → List Nat
  | [], _, _, _ => []
  | s :: rest, i, ib, et =>
    let r := comment_line_scan delims s (s.data.length + 2) ib et 0 false
    (if r.1 then [i] else [])
      ++ compute_comment_block_fold delims rest (i + 1) r.2.1 r.2.2

/-- `compute_comment_lines` of `comments.py`: indices of comment-only lines
(lines starting a line comment after whitespace, plus lines touched by a
block-comment span). -/
def compute_comment_lines (lang_key : String) (lines : List String) : List Nat :=
  let style := COMMENT_STYLE lang_key
  (if style.block ≠ [] then compute_comment_block_fold style.block lines 0 false "" else [])
  ++ (if style.line ≠ [] then
        (List.range lines.length).filter (fun i =>
          style.line.any (fun p => starts_with (py_lstrip (lines.getD i "")) p))
      else [])

/-- `first_inline_comment_index` of `comments.py`: position of the earliest
comment token preceded by some non-blank content. -/
def first_inline_comment_index (line : String) (lang_key : String) : Option Nat :=
  let style := COMMENT_STYLE lang_key
  let toks := style.line ++ style.block.map Prod.fst
  toks.foldl (fun best tok =>
    match str_find_from line tok 0 with
    | none => best
    | some k =>
      if (line.data.take k).any (fun c => ¬ (c = ' ' ∨ c = '\t')) then
        match best with
        | none => some k
        | some b => some (min b k)
      else best) none

/-- `mask_code_keep_comment` of `comments.py`: keep the indentation, mask the
code with an ellipsis, keep the trailing comment. -/
def mask_code_keep_comment (line : String) (lang_key : String) : Option String :=
  match first_inline_comment_index line lang_key with
  | none => none
  | some idx =>
    let ind := (line.data.takeWhile (fun c => c = ' ' ∨ c = '\t')).length
    some (str_take line ind ++ "… " ++ py_rstrip (str_drop line idx))

/-- The `while cursor <= f_end` scan of `collect_multiline_header`
(`header.py`), with the remaining line count as fuel (`f_end + 1 - cursor`
at the call site); returns (header, cursor, found-brace). -/
def header_scan (lines : List String) (f_end : Nat) :
    Nat → Nat → List String → List String × Nat × Bool
  | 0, cursor, acc => (acc, cursor, false)
  | fuel + 1, cursor, acc =>
    if cursor ≤ f_end then
      let line := lines.getD cursor ""
      if str_contains_char line '\x7b' then (acc ++ [line], cursor + 1, true)
      else header_scan lines f_end fuel (cursor + 1) (acc ++ [line])
    else (acc, cursor, false)

/-- `collect_multiline_header` of `header.py`, including the (unreachable)
next-line-brace special case after the scan. -/
def collect_multiline_header (ns : NodeSet) (lines : List String) (f_start f_end : Nat) :
    List String × Nat :=
  if ns.closing_is_brace then
    let r := header_scan lines f_end (f_end + 1 - f_start) f_start []
    if r.2.2 = false ∧ r.2.1 ≤ f_end then
      if r.2.1 ≤ f_end ∧ py_strip (lines.getD r.2.1 "") = "\x7b" then
        (r.1 ++ [lines.getD r.2.1 ""], r.2.1 + 1)
      else (r.1, r.2.1)
    else (r.1, r.2.1)
  else ([lines.getD f_start ""], f_start + 1)

/-- `dedent_minimum` of `indent.py`. -/
def dedent_minimum (lines : List String) : List String :=
  match (lines.filter (fun l => ¬ (py_strip l = ""))).map leading_spaces with
  | [] => lines
  | x :: xs =>
    let min_lead := xs.foldl Nat.min x
    if min_lead = 0 then lines
    else lines.map (fun l =>
      if l.data.take min_lead = List.replicate min_lead ' ' then
        String.mk (l.data.drop min_lead)
      else l)

/-- Ordered duplicate-free insertion into a sorted list of naturals. -/
def insert_sorted_nat (x : Nat) : List Nat → List Nat
  | [] => [x]
  | y :: ys =>
    if x < y then x :: y :: ys
    else if x = y then y :: ys
    else y :: insert_sorted_nat x ys

/-- Python `sorted(s)` for a set of line indices held as a list. -/
def sorted_set_nat (l : List Nat) : List Nat := l.foldr insert_sorted_nat []

/-- Code-point lexicographic comparison of strings (Python `<` on `str`). -/
def chars_lt : List Char → List Char → Bool
  | [], [] => false
  | [], _ :: _ => true
  | _ :: _, [] => false
  | a :: as, b :: bs => if a < b then true else if b < a then false else chars_lt as bs

def str_lt (a b : String) : Bool := chars_lt a.data b.data

/-- Ordered duplicate-free insertion into a sorted list of strings. -/
def insert_sorted_str (x : String) : List String → List String
  | [] => [x]
  | y :: ys =>
    if str_lt x y then x :: y :: ys
    else if x = y then y :: ys
    else y :: insert_sorted_str x ys

/-- Python `sorted(s)` for a set of identifier strings held as a list. -/
def sorted_set_str (l : List String) : List String := l.foldr insert_sorted_str []

/-- Inner loop of the block merge of `compress_function_from_source`
(`start`/`prev` accumulation over the sorted relevant lines). -/
def merge_go (start prev : Nat) : List Nat → List (Nat × Nat)
  | [] => [(start, prev)]
  | i :: rest =>
    if i = prev + 1 then merge_go start i rest
    else (start, prev) :: merge_go i i rest

/-- Merge a sorted list of line indices into maximal contiguous inclusive
blocks (the `--- Merge relevant lines into contiguous blocks ---` section). -/
def merge_blocks : List Nat → List (Nat × Nat)
  | [] => []
  | x :: xs => merge_go x x xs

/-- `nonempty_present` (nested in `compress_function_from_source`). -/
def nonempty_present (ls : List String) : Bool := ls.any (fun l => ¬ (py_strip l = ""))

/-- `emit_skipped_region_with_inline_comments` (nested in
`compress_function_from_source`): emit the omission marker and, optionally,
the masked trailing comments of the gap `[lo, hi)`. -/
def emit_skipped_region (lines : List String) (lang_key line_comment : String)
    (pic : Bool) (out : List String) (lo hi : Nat) : List String :=
  if hi ≤ lo then out
  else
    let slice := (lines.drop lo).take (hi - lo)
    if nonempty_present slice = false then out
    else
      let out2 := out ++ [line_comment ++ " ... omitted ..."]
      if pic then
        out2 ++ (List.range' lo (hi - lo)).filterMap
          (fun j => mask_code_keep_comment (lines.getD j "") lang_key)
      else out2

/-- Emission of one block's lines (`for i in range(start, end + 1)` with the
blank-line filter). -/
def emit_block_lines (lines : List String) (comment_only : List Nat)
    (start e : Nat) : List String :=
  (List.range' start (e + 1 - start)).filterMap (fun i =>
    if ¬ (py_strip (lines.getD i "") = "") ∨ i ∈ comment_only then
      some (lines.getD i "")
    else none)

/-- The `for start, end in blocks` output loop of
`compress_function_from_source`: clamp the block to the cursor (skipping it
when fully behind), emit the gap, emit the block, advance the cursor. -/
def emit_blocks (lines : List String) (lang_key line_comment : String) (pic : Bool)
    (comment_only : List Nat) : List (Nat × Nat) → Nat → List String →
    List String × Nat
  | [], cursor, out => (out, cursor)
  | (start, e) :: rest, cursor, out =>
    if start < cursor ∧ e < cursor then
      emit_blocks lines lang_key line_comment pic comment_only rest cursor out
    else
      let start2 := max start cursor
      let out2 := emit_skipped_region lines lang_key line_comment pic out cursor start2
      let out3 := out2 ++ emit_block_lines lines comment_only start2 e
      emit_blocks lines lang_key line_comment pic comment_only rest (e + 1) out3

/-- The `meta` dictionary of a `compress_function_from_source` result;
fields absent on a code path are `none`. -/
structure Meta where
  language : Option String := none
  function_lines : Option (Nat × Nat) := none
  header_lines : Option (Nat × Nat) := none
  target_line : Int := 0
  identifiers : Option (List String × List String × List String) := none
  blocks : Option (List (Nat × Nat)) := none
  preserve_inline_comments : Option Bool := none

/-- A `{"text": ..., "meta": ...}` result of `compress_function_from_source`. -/
structure CompressResult where
  text : String
  meta : Meta

/-- The backward-slicing phase of `compress_function_from_source`: seed
reads/writes of the target node, the ancestor scan regions, and the bounded
expansion loop. -/
def compress_slice_state (ns : NodeSet) (lang_key : String) (target_node : Node)
    (tanc : List Node) (max_backward_depth : Nat) (ich : Bool) : SliceSt :=
  let rw := split_reads_writes ns lang_key target_node
  let relevant0 := span_lines target_node.startLine target_node.endLine
  let nodes_to_visit := (with_tails (target_node :: tanc)).filter
      (fun p => is_block_like p.1 ns || is_function_like p.1 ns)
  let st0 : SliceSt :=
    { relevant := relevant0, fr := rw.1, fw := rw.2, sr := [], sw := [], passes := 0 }
  slice_loop ns lang_key ich nodes_to_visit max_backward_depth st0

/-- The final relevant-line set of `compress_function_from_source`: the
slicing result, plus the comment-only lines of the function range, plus the
control-header post pass. -/
def compress_relevant (ns : NodeSet) (lang_key : String) (lines : List String)
    (func_node target_node : Node) (tanc : List Node) (max_backward_depth : Nat)
    (ich : Bool) : List Nat :=
  let st1 := compress_slice_state ns lang_key target_node tanc max_backward_depth ich
  let comment_only := compute_comment_lines lang_key lines
  let rel2 := st1.relevant
      ++ (List.range' func_node.startLine (func_node.endLine + 1 - func_node.startLine)).filter
          (fun i => i ∈ comment_only)
  if ich ∧ ns.control ≠ [] then ensure_control_headers ns func_node rel2 else rel2

/-- The output assembly of `compress_function_from_source` up to (and
excluding) the closing-line append: header, block emission with gap markers,
and the trailing gap. -/
def emit_body (ns : NodeSet) (lang_key line_comment : String) (lines : List String)
    (pic : Bool) (comment_only : List Nat) (blocks : List (Nat × Nat))
    (f_start f_end : Nat) : List String :=
  let hdr := collect_multiline_header ns lines f_start f_end
  let eb := emit_blocks lines lang_key line_comment pic comment_only blocks hdr.2 hdr.1
  emit_skipped_region lines lang_key line_comment pic eb.1 eb.2 f_end

/-- The `--- Build output ---` section of `compress_function_from_source`:
header, block emission with gap markers, trailing gap, and the unconditional
closing-line append for brace-closed languages (before dedenting). -/
def assemble_output (ns : NodeSet) (lang_key line_comment : String) (lines : List String)
    (pic : Bool) (comment_only : List Nat) (blocks : List (Nat × Nat))
    (f_start f_end : Nat) : List String :=
  let out2 := emit_body ns lang_key line_comment lines pic comment_only blocks f_start f_end
  if ns.closing_is_brace then out2 ++ [lines.getD f_end ""] else out2

/-- The `--- Comment prefix ---` section: the optional `markers` override of
the language's line-comment token (falsy overrides are ignored). -/
def resolve_line_comment (markers : Option String) (ns : NodeSet) : String :=
  match markers with
  | some m => if m = "" then ns.line_comment_tok else m
  | none => ns.line_comment_tok

/-- Body of `compress_function_from_source` from the point where both the
function node and the target node have been located (with `tanc` the target
node's ancestor chain, innermost first, reaching through the whole tree). -/
def compress_main (ns : NodeSet) (lang_key line_comment : String) (lines : List String)
    (line_number : Int) (func_node target_node : Node) (tanc : List Node)
    (max_backward_depth : Nat) (pic ich : Bool) : CompressResult :=
  let rw := split_reads_writes ns lang_key target_node
  let seed_all_sorted := sorted_set_str (rw.1 ++ rw.2)
  let st1 := compress_slice_state ns lang_key target_node tanc max_backward_depth ich
  let f_start := func_node.startLine
  let f_end := func_node.endLine
  let comment_only := compute_comment_lines lang_key lines
  let rel3 := compress_relevant ns lang_key lines func_node target_node tanc
      max_backward_depth ich
  let blocks := merge_blocks (sorted_set_nat rel3)
  let hdr := collect_multiline_header ns lines f_start f_end
  let outD := dedent_minimum
      (assemble_output ns lang_key line_comment lines pic comment_only blocks f_start f_end)
  { text := String.intercalate "\n" outD
    meta := { language := some lang_key
              function_lines := some (f_start + 1, f_end + 1)
              header_lines := some (f_start + 1, f_start + hdr.1.length)
              target_line := line_number
              identifiers := some (seed_all_sorted, sorted_set_str st1.fr,
                                   sorted_set_str st1.fw)
              blocks := some (blocks.map (fun p => (p.1 + 1, p.2 + 1)))
              preserve_inline_comments := some pic } }

/-- `compress_function_from_source` of `compress.py`.  The external parser is
modelled by taking the parsed `tree` and the `splitlines` result `lines` as
inputs; `ext` is the (lower-cased) extension of the filename; `markers` is
the optional `markers.get("line_comment")` override. -/
def compress_function_from_source (tree : Node) (lines : List String) (ext : String)
    (line_number : Int) (max_backward_depth : Nat) (markers : Option String)
    (pic ich : Bool) : CompressResult :=
  if line_number ≤ 0 then
    { text := "// Invalid line number (must be 1-based and > 0)."
      meta := { target_line := line_number } }
  else if lines = [] then
    { text := "// Empty source.", meta := { target_line := line_number } }
  else if (lines.length : Int) < line_number then
    { text := "// Target line beyond end of file."
      meta := { target_line := line_number } }
  else
    match detect_nodeset ext with
    | none =>
      { text := "// Unsupported file extension: " ++ ext
        meta := { target_line := line_number } }
    | some (lang_key, ns) =>
      let line_comment := resolve_line_comment markers ns
      let ln := line_number.toNat
      match find_function_node_path ns ln tree [] with
      | none =>
        { text := line_comment ++ " Function not found."
          meta := { language := some lang_key, target_line := line_number } }
      | some (func_node, fanc) =>
        match find_target_node_path ln func_node fanc with
        | none =>
          { text := line_comment ++ " Target line not found in function."
            meta := { language := some lang_key
                      function_lines := some (func_node.startLine + 1, func_node.endLine + 1)
                      target_line := line_number } }
        | some (target_node, tanc) =>
          compress_main ns lang_key line_comment lines line_number func_node target_node
            tanc max_backward_depth pic ich

mutual
/-- All nodes of a subtree, the root included (pre-order). -/
def subnodes : Node → List Node
  | n@(.mk _ _ _ _ ch) => n :: subnodes_list ch
def subnodes_list : List Node → List Node
  | [] => []
  | c :: cs => subnodes c ++ subnodes_list cs
end

mutual
/-- Tree-sitter span discipline: every child's line span lies inside its
parent's span. -/
def spans_nested : Node → Bool
  | .mk _ s e _ ch =>
    (ch.all (fun c => decide (s ≤ c.startLine) && decide (c.endLine ≤ e)))
      && spans_nested_list ch
def spans_nested_list : List Node → Bool
  | [] => true
  | c :: cs => spans_nested c && spans_nested_list cs
end

/-- The match condition of `find_function_node`: function-like kind and a
1-based line span containing the target line. -/
def covers_fn (ns : NodeSet) (ln : Nat) (n : Node) : Bool :=
  is_function_like n ns && decide (n.startLine + 1 ≤ ln) && decide (ln ≤ n.endLine + 1)

/-- Example (python): a class whose body holds a class-level assignment and a
method that reads the assigned name.
Line 0 `class A:`, line 1 `    x = 1`, line 2 `    def f(self):`,
line 3 `        return x`. -/
def pyClassAssign : Node :=
  .mk "expression_statement" 1 1 "x = 1"
    [.mk "assignment" 1 1 "x = 1"
      [.mk "identifier" 1 1 "x" [], .mk "=" 1 1 "=" [], .mk "integer" 1 1 "1" []]]

def pyClassRet : Node :=
  .mk "return_statement" 3 3 "return x" [.mk "identifier" 3 3 "x" []]

def pyClassFdefBody : Node := .mk "block" 3 3 "return x" [pyClassRet]

def pyClassFdef : Node :=
  .mk "function_definition" 2 3 "def f(self):"
    [.mk "identifier" 2 2 "f" [], .mk "parameters" 2 2 "(self)" [], pyClassFdefBody]

def pyClassBody : Node := .mk "block" 1 3 "" [pyClassAssign, pyClassFdef]

def pyClass : Node :=
  .mk "class_definition" 0 3 "" [.mk "identifier" 0 0 "A" [], pyClassBody]

def pyClassTree : Node := .mk "module" 0 3 "" [pyClass]

def pyClassLines : List String :=
  ["class A:", "    x = 1", "    def f(self):", "        return x"]

/-- Example (python): a chain of assignments `d = 1; c = d; b = c; a = b`
followed by `return a`; the statement `c = d` is reachable only through the
identifier `c`, which is three dependency hops from the seed `a`. -/
def pyChainAssign (i : Nat) (lhs rhs rhsKind : String) : Node :=
  .mk "expression_statement" i i ""
    [.mk "assignment" i i ""
      [.mk "identifier" i i lhs [], .mk "=" i i "=" [], .mk rhsKind i i rhs []]]

def pyChainRet : Node :=
  .mk "return_statement" 5 5 "return a" [.mk "identifier" 5 5 "a" []]

def pyChainBody : Node :=
  .mk "block" 1 5 ""
    [pyChainAssign 1 "d" "1" "integer", pyChainAssign 2 "c" "d" "identifier",
     pyChainAssign 3 "b" "c" "identifier", pyChainAssign 4 "a" "b" "identifier",
     pyChainRet]

def pyChainFdef : Node :=
  .mk "function_definition" 0 5 ""
    [.mk "identifier" 0 0 "f" [], .mk "parameters" 0 0 "()" [], pyChainBody]

def pyChainTree : Node := .mk "module" 0 5 "" [pyChainFdef]

def pyChainLines : List String :=
  ["def f():", "    d = 1", "    c = d", "    b = c", "    a = b", "    return a"]

/-- Example (cpp): `int f() { return 0; }` over three lines, targeted at the
closing-brace line. -/
def cppRetStmt : Node :=
  .mk "return_statement" 1 1 "return 0;" [.mk "number_literal" 1 1 "0" []]

def cppRetBody : Node :=
  .mk "compound_statement" 0 2 ""
    [.mk "\x7b" 0 0 "\x7b" [], cppRetStmt, .mk "\x7d" 2 2 "\x7d" []]

def cppRetFdef : Node :=
  .mk "function_definition" 0 2 ""
    [.mk "primitive_type" 0 0 "int" [],
     .mk "function_declarator" 0 0 "f()" [.mk "identifier" 0 0 "f" []], cppRetBody]

def cppRetTree : Node := .mk "translation_unit" 0 2 "" [cppRetFdef]

def cppRetLines : List String := ["int f() \x7b", "  return 0;", "\x7d"]

/-- Example (python): the assignment `x = x` whose left- and right-hand sides
are the same identifier. -/
def pySelfAssign : Node :=
  .mk "assignment" 0 0 "x = x"
    [.mk "identifier" 0 0 "x" [], .mk "=" 0 0 "=" [], .mk "identifier" 0 0 "x" []]

theorem detect_lang_nodeset_total (ext k : String) (h : detect_language ext = some k) :
    LANG_NODESETS k ≠ none := by
  have : ∀ p ∈ EXT_LANG_KEY, LANG_NODESETS p.2 ≠ none := by decide
  unfold detect_language at h
  match hf : EXT_LANG_KEY.find? (fun p => p.1 = ext) with
  | none => rw [hf] at h; simp at h
  | some p =>
    rw [hf] at h
    simp at h
    have hp := List.mem_of_find?_eq_some hf
    subst h
    exact this p hp

theorem contains_mem_str {l : List String} {x : String} : l.contains x = true ↔ x ∈ l := by
  induction l with
  | nil => simp
  | cons a as ih => simp [List.contains] at *

theorem contains_mem_nat {l : List Nat} {x : Nat} : l.contains x = true ↔ x ∈ l := by
  induction l with
  | nil => simp
  | cons a as ih => simp [List.contains] at *

theorem covers_fn_iff (ns : NodeSet) (ln : Nat) (n : Node) :
    covers_fn ns ln n = true ↔
      (is_function_like n ns = true ∧ n.startLine + 1 ≤ ln ∧ ln ≤ n.endLine + 1) := by
  simp [covers_fn, Bool.and_eq_true, decide_eq_true_iff, and_assoc]

mutual
theorem ffn_some_covers (ns : NodeSet) (ln : Nat) :
    ∀ n m : Node, find_function_node ns ln n = some m → covers_fn ns ln m = true := by
  intro n m h
  cases n with
  | mk k s e t ch =>
    rw [find_function_node] at h
    by_cases hc : is_function_like (Node.mk k s e t ch) ns = true ∧ s + 1 ≤ ln ∧ ln ≤ e + 1
    · rw [if_pos hc] at h
      cases h
      exact (covers_fn_iff ns ln _).2 ⟨hc.1, hc.2.1, hc.2.2⟩
    · rw [if_neg hc] at h
      exact ffn_list_some_covers ns ln ch m h
theorem ffn_list_some_covers (ns : NodeSet) (ln : Nat) :
    ∀ (l : List Node) (m : Node), find_function_list ns ln l = some m →
      covers_fn ns ln m = true := by
  intro l m h
  cases l with
  | nil => simp [find_function_list] at h
  | cons c cs =>
    rw [find_function_list] at h
    match hc : find_function_node ns ln c with
    | some m2 => rw [hc] at h; cases h; exact ffn_some_covers ns ln c m hc
    | none => rw [hc] at h; exact ffn_list_some_covers ns ln cs m h
end

mutual
theorem ffn_none_iff (ns : NodeSet) (ln : Nat) :
    ∀ n : Node, find_function_node ns ln n = none ↔
      ∀ d ∈ subnodes n, covers_fn ns ln d = false := by
  intro n
  cases n with
  | mk k s e t ch =>
    rw [find_function_node, subnodes]
    by_cases hc : is_function_like (Node.mk k s e t ch) ns = true ∧ s + 1 ≤ ln ∧ ln ≤ e + 1
    · rw [if_pos hc]
      constructor
      · intro h; cases h
      · intro h
        have := h (Node.mk k s e t ch) (by simp)
        rw [(covers_fn_iff ns ln _).2 ⟨hc.1, hc.2.1, hc.2.2⟩] at this
        cases this
    · rw [if_neg hc]
      rw [ffn_list_none_iff ns ln ch]
      constructor
      · intro h d hd
        rcases List.mem_cons.1 hd with h2 | hd2
        · subst h2
          have h3 : ¬ covers_fn ns ln (Node.mk k s e t ch) = true := by
            rw [covers_fn_iff]
            exact hc
          simpa using h3
        · exact h d hd2
      · intro h d hd
        exact h d (List.mem_cons.2 (Or.inr hd))
theorem ffn_list_none_iff (ns : NodeSet) (ln : Nat) :
    ∀ l : List Node, find_function_list ns ln l = none ↔
      ∀ d ∈ subnodes_list l, covers_fn ns ln d = false := by
  intro l
  cases l with
  | nil => simp [find_function_list, subnodes_list]
  | cons c cs =>
    rw [find_function_list, subnodes_list]
    match hc : find_function_node ns ln c with
    | some m2 =>
      simp only []
      constructor
      · intro h; cases h
      · intro h
        have h1 : find_function_node ns ln c = none := by
          rw [ffn_none_iff ns ln c]
          intro d hd
          exact h d (List.mem_append.2 (Or.inl hd))
        rw [hc] at h1; cases h1
    | none =>
      simp only []
      rw [ffn_list_none_iff ns ln cs]
      have h1 := (ffn_none_iff ns ln c).1 hc
      constructor
      · intro h d hd
        rcases List.mem_append.1 hd with hd2 | hd2
        · exact h1 d hd2
        · exact h d hd2
      · intro h d hd
        exact h d (List.mem_append.2 (Or.inr hd))
end

theorem ffn_self (ns : NodeSet) (ln : Nat) (n : Node) (h : covers_fn ns ln n = true) :
    find_function_node ns ln n = some n := by
  cases n with
  | mk k s e t ch =>
    rw [find_function_node]
    rw [covers_fn_iff] at h
    exact if_pos ⟨h.1, h.2.1, h.2.2⟩

mutual
theorem ffnp_spec (ns : NodeSet) (ln : Nat) :
    ∀ (n : Node) (anc : List Node) (m : Node) (manc : List Node),
      find_function_node_path ns ln n anc = some (m, manc) →
      covers_fn ns ln m = true ∧ ∀ a ∈ manc, a ∈ anc ∨ covers_fn ns ln a = false := by
  intro n anc m manc h
  cases n with
  | mk k s e t ch =>
    rw [find_function_node_path] at h
    by_cases hc : is_function_like (Node.mk k s e t ch) ns = true ∧ s + 1 ≤ ln ∧ ln ≤ e + 1
    · rw [if_pos hc] at h
      cases h
      refine ⟨(covers_fn_iff ns ln _).2 ⟨hc.1, hc.2.1, hc.2.2⟩, ?_⟩
      intro a ha
      exact Or.inl ha
    · rw [if_neg hc] at h
      have := ffnp_list_spec ns ln ch (Node.mk k s e t ch :: anc) m manc h
      refine ⟨this.1, ?_⟩
      intro a ha
      rcases this.2 a ha with h2 | h2
      · rcases List.mem_cons.1 h2 with h4 | h3
        · subst h4
          right
          have h5 : ¬ covers_fn ns ln (Node.mk k s e t ch) = true := by
            rw [covers_fn_iff]
            exact hc
          simpa using h5
        · exact Or.inl h3
      · exact Or.inr h2
theorem ffnp_list_spec (ns : NodeSet) (ln : Nat) :
    ∀ (l : List Node) (anc : List Node) (m : Node) (manc : List Node),
      find_function_path_list ns ln l anc = some (m, manc) →
      covers_fn ns ln m = true ∧ ∀ a ∈ manc, a ∈ anc ∨ covers_fn ns ln a = false := by
  intro l anc m manc h
  cases l with
  | nil => simp [find_function_path_list] at h
  | cons c cs =>
    rw [find_function_path_list] at h
    match hc : find_function_node_path ns ln c anc with
    | some r => rw [hc] at h; cases h; exact ffnp_spec ns ln c anc m manc hc
    | none => rw [hc] at h; exact ffnp_list_spec ns ln cs anc m manc h
end

mutual
theorem fef_some_covers (funcTypes : List String) (ln : Nat) :
    ∀ n m : Node, find_enclosing_function funcTypes ln n = some m →
      m.kind ∈ funcTypes ∧ m.startLine + 1 ≤ ln ∧ ln ≤ m.endLine + 1 := by
  intro n m h
  cases n with
  | mk k s e t ch =>
    rw [find_enclosing_function] at h
    by_cases h1 : ¬ (s + 1 ≤ ln ∧ ln ≤ e + 1)
    · rw [if_pos h1] at h; cases h
    · rw [if_neg h1] at h
      push_neg at h1
      by_cases h2 : k ∈ funcTypes
      · rw [if_pos h2] at h
        cases h
        exact ⟨h2, h1.1, h1.2⟩
      · rw [if_neg h2] at h
        exact fef_list_some_covers funcTypes ln ch m h
theorem fef_list_some_covers (funcTypes : List String) (ln : Nat) :
    ∀ (l : List Node) (m : Node), find_enclosing_list funcTypes ln l = some m →
      m.kind ∈ funcTypes ∧ m.startLine + 1 ≤ ln ∧ ln ≤ m.endLine + 1 := by
  intro l m h
  cases l with
  | nil => simp [find_enclosing_list] at h
  | cons c cs =>
    rw [find_enclosing_list] at h
    match hc : find_enclosing_function funcTypes ln c with
    | some m2 => rw [hc] at h; cases h; exact fef_some_covers funcTypes ln c m hc
    | none => rw [hc] at h; exact fef_list_some_covers funcTypes ln cs m h
end

theorem node_kind_mk (k : String) (s e : Nat) (t : String) (ch : List Node) :
    (Node.mk k s e t ch).kind = k := rfl

theorem node_startLine_mk (k : String) (s e : Nat) (t : String) (ch : List Node) :
    (Node.mk k s e t ch).startLine = s := rfl

theorem node_endLine_mk (k : String) (s e : Nat) (t : String) (ch : List Node) :
    (Node.mk k s e t ch).endLine = e := rfl

theorem node_text_mk (k : String) (s e : Nat) (t : String) (ch : List Node) :
    (Node.mk k s e t ch).text = t := rfl

theorem node_children_mk (k : String) (s e : Nat) (t : String) (ch : List Node) :
    (Node.mk k s e t ch).children = ch := rfl

mutual
theorem subnodes_span_sub :
    ∀ n : Node, spans_nested n = true →
      ∀ d ∈ subnodes n, n.startLine ≤ d.startLine ∧ d.endLine ≤ n.endLine := by
  intro n hsn d hd
  cases n with
  | mk k s e t ch =>
    rw [spans_nested, Bool.and_eq_true, List.all_eq_true] at hsn
    rw [subnodes] at hd
    rcases List.mem_cons.1 hd with h2 | h2
    · subst h2; exact ⟨le_refl _, le_refl _⟩
    · have := subnodes_list_span_sub ch hsn.2 d h2
      rcases this with ⟨c, hc, hcs, hce⟩
      have hb := hsn.1 c hc
      rw [Bool.and_eq_true, decide_eq_true_iff, decide_eq_true_iff] at hb
      exact ⟨le_trans hb.1 hcs, le_trans hce hb.2⟩
theorem subnodes_list_span_sub :
    ∀ l : List Node, spans_nested_list l = true →
      ∀ d ∈ subnodes_list l, ∃ c ∈ l,
        c.startLine ≤ d.startLine ∧ d.endLine ≤ c.endLine := by
  intro l hsn d hd
  cases l with
  | nil => simp [subnodes_list] at hd
  | cons c cs =>
    rw [spans_nested_list, Bool.and_eq_true] at hsn
    rw [subnodes_list] at hd
    rcases List.mem_append.1 hd with h2 | h2
    · exact ⟨c, List.mem_cons_self _ _, subnodes_span_sub c hsn.1 d h2⟩
    · rcases subnodes_list_span_sub cs hsn.2 d h2 with ⟨c2, hc2, hx⟩
      exact ⟨c2, List.mem_cons.2 (Or.inr hc2), hx⟩
end

mutual
theorem fef_none_iff (funcTypes : List String) (ln : Nat) :
    ∀ n : Node, spans_nested n = true →
      (find_enclosing_function funcTypes ln n = none ↔
        ∀ d ∈ subnodes n,
          ¬ (d.kind ∈ funcTypes ∧ d.startLine + 1 ≤ ln ∧ ln ≤ d.endLine + 1)) := by
  intro n hsn
  cases n with
  | mk k s e t ch =>
    rw [find_enclosing_function, subnodes]
    by_cases h1 : ¬ (s + 1 ≤ ln ∧ ln ≤ e + 1)
    · rw [if_pos h1]
      constructor
      · intro _ d hd hcond
        have hsub : (Node.mk k s e t ch).startLine ≤ d.startLine ∧
            d.endLine ≤ (Node.mk k s e t ch).endLine := by
          apply subnodes_span_sub _ hsn
          rw [subnodes]
          exact hd
        rw [node_startLine_mk, node_endLine_mk] at hsub
        have ha := hsub.1
        have hb := hsub.2
        have hc1 := hcond.2.1
        have hc2 := hcond.2.2
        exact h1 ⟨by omega, by omega⟩
      · intro _; rfl
    · rw [if_neg h1]
      push_neg at h1
      by_cases h2 : k ∈ funcTypes
      · rw [if_pos h2]
        constructor
        · intro h; cases h
        · intro h
          exact absurd ⟨h2, h1.1, h1.2⟩ (h (Node.mk k s e t ch) (by simp))
      · rw [if_neg h2]
        have hsnl : spans_nested_list ch = true := by
          rw [spans_nested, Bool.and_eq_true] at hsn
          exact hsn.2
        rw [fef_list_none_iff funcTypes ln ch hsnl]
        constructor
        · intro h d hd
          rcases List.mem_cons.1 hd with h3 | h3
          · subst h3
            intro hcond
            exact h2 hcond.1
          · exact h d h3
        · intro h d hd
          exact h d (List.mem_cons.2 (Or.inr hd))
theorem fef_list_none_iff (funcTypes : List String) (ln : Nat) :
    ∀ l : List Node, spans_nested_list l = true →
      (find_enclosing_list funcTypes ln l = none ↔
        ∀ d ∈ subnodes_list l,
          ¬ (d.kind ∈ funcTypes ∧ d.startLine + 1 ≤ ln ∧ ln ≤ d.endLine + 1)) := by
  intro l hsn
  cases l with
  | nil => simp [find_enclosing_list, subnodes_list]
  | cons c cs =>
    rw [spans_nested_list, Bool.and_eq_true] at hsn
    rw [find_enclosing_list, subnodes_list]
    match hc : find_enclosing_function funcTypes ln c with
    | some m2 =>
      simp only []
      constructor
      · intro h; cases h
      · intro h
        have h1 : find_enclosing_function funcTypes ln c = none := by
          rw [fef_none_iff funcTypes ln c hsn.1]
          intro d hd
          exact h d (List.mem_append.2 (Or.inl hd))
        rw [hc] at h1; cases h1
    | none =>
      simp only []
      rw [fef_list_none_iff funcTypes ln cs hsn.2]
      have h1 := (fef_none_iff funcTypes ln c hsn.1).1 hc
      constructor
      · intro h d hd
        rcases List.mem_append.1 hd with hd2 | hd2
        · exact h1 d hd2
        · exact h d hd2
      · intro h d hd
        exact h d (List.mem_append.2 (Or.inr hd))
end

/-- C3: `find_function_node` / `find_enclosing_function` perform a pre-order
search and, at the first node whose kind is in the profile's function set and
whose line span contains the target line, return that node without descending
further — so the returned node of the path-tracking search has no
function-like covering ancestor (the outermost function-like node enclosing
the line; a function nested inside another resolves to the outer one) — and
they return `none` when no function-like node covers the line (for
`find_enclosing_function`, which prunes non-covering subtrees, under the
tree-sitter span-nesting discipline). -/
theorem C3_find_function_outermost (ns : NodeSet) (funcTypes : List String) (ln : Nat)
    (root m : Node) (manc : List Node) :
    (find_function_node ns ln root = some m → covers_fn ns ln m = true)
    ∧ (find_function_node ns ln root = none ↔
        ∀ d ∈ subnodes root, covers_fn ns ln d = false)
    ∧ (covers_fn ns ln root = true → find_function_node ns ln root = some root)
    ∧ (find_function_node_path ns ln root [] = some (m, manc) →
        covers_fn ns ln m = true ∧ ∀ a ∈ manc, covers_fn ns ln a = false)
    ∧ (find_enclosing_function funcTypes ln root = some m →
        m.kind ∈ funcTypes ∧ m.startLine + 1 ≤ ln ∧ ln ≤ m.endLine + 1)
    ∧ (spans_nested root = true →
        (find_enclosing_function funcTypes ln root = none ↔
          ∀ d ∈ subnodes root,
            ¬ (d.kind ∈ funcTypes ∧ d.startLine + 1 ≤ ln ∧ ln ≤ d.endLine + 1))) := by
  refine ⟨ffn_some_covers ns ln root m, ffn_none_iff ns ln root, ffn_self ns ln root, ?_,
    fef_some_covers funcTypes ln root m, fef_none_iff funcTypes ln root⟩
  intro h
  have := ffnp_spec ns ln root [] m manc h
  refine ⟨this.1, ?_⟩
  intro a ha
  rcases this.2 a ha with h2 | h2
  · cases h2
  · exact h2

/-- Witness for C3 at a concrete tree: the nested method of `pyClassTree` is
found for line 4, and none of its ancestors (class body, class, module) is a
covering function-like node. -/
theorem C3_find_function_outermost_witness :
    covers_fn pythonNodeSet 4 pyClassFdef = true ∧
      ∀ a ∈ [pyClassBody, pyClass, pyClassTree], covers_fn pythonNodeSet 4 a = false :=
  (C3_find_function_outermost pythonNodeSet pythonNodeSet.function 4 pyClassTree
    pyClassFdef [pyClassBody, pyClass, pyClassTree]).2.2.2.1 rfl

theorem header_scan_no_brace (lines : List String) (f_end : Nat) :
    ∀ (fuel cursor : Nat) (acc : List String),
      f_end + 1 - cursor ≤ fuel →
      (∀ j, cursor ≤ j → j ≤ f_end → str_contains_char (lines.getD j "") '\x7b' = false) →
      header_scan lines f_end fuel cursor acc =
        (acc ++ (List.range' cursor (f_end + 1 - cursor)).map (fun j => lines.getD j ""),
         f_end + 1 - cursor + cursor, false) := by
  intro fuel
  induction fuel with
  | zero =>
    intro cursor acc hf _
    have h0 : f_end + 1 - cursor = 0 := by omega
    rw [header_scan, h0]
    simp
  | succ fuel ih =>
    intro cursor acc hf hnb
    rw [header_scan]
    by_cases hc : cursor ≤ f_end
    · rw [if_pos hc]
      have hb := hnb cursor (le_refl _) hc
      simp only [hb, Bool.false_eq_true, if_false]
      rw [ih (cursor + 1) (acc ++ [lines.getD cursor ""]) (by omega)
          (fun j hj1 hj2 => hnb j (by omega) hj2)]
      have hcount : f_end + 1 - cursor = (f_end + 1 - (cursor + 1)) + 1 := by omega
      rw [hcount, List.range'_succ]
      simp
      omega
    · rw [if_neg hc]
      have h0 : f_end + 1 - cursor = 0 := by omega
      rw [h0]
      simp

theorem header_scan_found (lines : List String) (f_end : Nat) :
    ∀ (fuel cursor : Nat) (acc : List String) (j0 : Nat),
      cursor ≤ j0 → j0 ≤ f_end → j0 + 1 - cursor ≤ fuel →
      str_contains_char (lines.getD j0 "") '\x7b' = true →
      (∀ j, cursor ≤ j → j < j0 → str_contains_char (lines.getD j "") '\x7b' = false) →
      header_scan lines f_end fuel cursor acc =
        (acc ++ (List.range' cursor (j0 + 1 - cursor)).map (fun j => lines.getD j ""),
         j0 + 1, true) := by
  intro fuel
  induction fuel with
  | zero =>
    intro cursor acc j0 h1 _ h3 _ _
    omega
  | succ fuel ih =>
    intro cursor acc j0 h1 h2 h3 hbr hnb
    rw [header_scan]
    rw [if_pos (by omega : cursor ≤ f_end)]
    by_cases hc : cursor = j0
    · subst hc
      simp only [hbr, if_true]
      have hone : cursor + 1 - cursor = 1 := by omega
      rw [hone]
      simp [List.range'_one]
    · have hb := hnb cursor (le_refl _) (by omega)
      simp only [hb, Bool.false_eq_true, if_false]
      rw [ih (cursor + 1) (acc ++ [lines.getD cursor ""]) j0 (by omega) h2 (by omega) hbr
          (fun j hj1 hj2 => hnb j (by omega) hj2)]
      have hcount : j0 + 1 - cursor = (j0 + 1 - (cursor + 1)) + 1 := by omega
      rw [hcount, List.range'_succ]
      simp

/-- C7 (amended): for brace-closed languages the emitted header consists of
the function's lines from its first line up to and including the first line
containing a brace; when no line of the scanned range contains a brace the
header is all of the function's lines and the cursor stops past `f_end` —
the next-line-brace special case of `header.py` can never fire, because the
scan leaves `cursor ≤ f_end` unsatisfiable; for indentation-based languages
the header is exactly the function's first line. -/
theorem C7_header_collection (ns : NodeSet) (lines : List String) (f_start f_end j0 : Nat) :
    (ns.closing_is_brace = true → f_start ≤ j0 → j0 ≤ f_end →
      str_contains_char (lines.getD j0 "") '\x7b' = true →
      (∀ j, f_start ≤ j → j < j0 → str_contains_char (lines.getD j "") '\x7b' = false) →
      collect_multiline_header ns lines f_start f_end =
        ((List.range' f_start (j0 + 1 - f_start)).map (fun j => lines.getD j ""), j0 + 1))
    ∧ (ns.closing_is_brace = true →
      (∀ j, f_start ≤ j → j ≤ f_end → str_contains_char (lines.getD j "") '\x7b' = false) →
      collect_multiline_header ns lines f_start f_end =
        ((List.range' f_start (f_end + 1 - f_start)).map (fun j => lines.getD j ""),
         f_end + 1 - f_start + f_start))
    ∧ (ns.closing_is_brace = false →
      collect_multiline_header ns lines f_start f_end =
        ([lines.getD f_start ""], f_start + 1)) := by
  refine ⟨?_, ?_, ?_⟩
  · intro hb h1 h2 h3 h4
    rw [collect_multiline_header, if_pos hb]
    rw [header_scan_found lines f_end (f_end + 1 - f_start) f_start [] j0 h1 h2 (by omega) h3 h4]
    simp
  · intro hb h1
    rw [collect_multiline_header, if_pos hb]
    rw [header_scan_no_brace lines f_end (f_end + 1 - f_start) f_start [] (le_refl _) h1]
    have hcond : ¬ ((false = false) ∧ f_end + 1 - f_start + f_start ≤ f_end) := by
      intro hx
      have := hx.2
      omega
    rw [if_neg hcond]
    simp
  · intro hb
    rw [collect_multiline_header, hb]
    simp

/-- Counterexample for C7 as stated: a one-line function range with no brace,
whose very next line is exactly a brace; the code returns the header without
that next line (the special case in `header.py` is dead code). -/
theorem C7_header_collection_counterexample :
    str_contains_char ((["int f()", "\x7b"] : List String).getD 0 "") '\x7b' = false
    ∧ py_strip ((["int f()", "\x7b"] : List String).getD 1 "") = "\x7b"
    ∧ collect_multiline_header cppNodeSet ["int f()", "\x7b"] 0 0 = (["int f()"], 1) := by
  refine ⟨by decide, by decide, by decide⟩

/-- Witness for C7 (amended) at concrete inputs: the brace on the first line
of `cppRetLines` closes the header there, and a braceless range yields all
its lines with the following brace line not consumed. -/
theorem C7_header_collection_witness :
    collect_multiline_header cppNodeSet cppRetLines 0 2 = (["int f() \x7b"], 1)
    ∧ collect_multiline_header cppNodeSet ["int f()", "\x7b"] 0 0 = (["int f()"], 1)
    ∧ collect_multiline_header pythonNodeSet pyClassLines 2 3 = (["    def f(self):"], 3) := by
  refine ⟨?_, ?_, ?_⟩
  · have h := (C7_header_collection cppNodeSet cppRetLines 0 2 0).1 rfl (le_refl 0)
      (by omega) (by decide) (fun j hj1 hj2 => absurd hj2 (Nat.not_lt_zero j))
    rw [h]
    decide
  · have h := (C7_header_collection cppNodeSet ["int f()", "\x7b"] 0 0 0).2.1 rfl
      (fun j hj1 hj2 => by
        have h0 : j = 0 := by omega
        subst h0
        decide)
    rw [h]
    decide
  · exact (C7_header_collection pythonNodeSet pyClassLines 2 3 0).2.2 rfl

/-- C8: for target_line ≤ 0, for empty source, and for a target line beyond
the last line, `compress_function_from_source` returns (rather than raising)
the corresponding diagnostic result, whose text is exactly the diagnostic
string and whose `meta.target_line` is the given line number. -/
theorem C8_guard_diagnostics (tree : Node) (lines : List String) (ext : String)
    (line_number : Int) (mbd : Nat) (markers : Option String) (pic ich : Bool) :
    (line_number ≤ 0 →
      compress_function_from_source tree lines ext line_number mbd markers pic ich =
        { text := "// Invalid line number (must be 1-based and > 0)."
          meta := { target_line := line_number } })
    ∧ (0 < line_number → lines = [] →
      compress_function_from_source tree lines ext line_number mbd markers pic ich =
        { text := "// Empty source.", meta := { target_line := line_number } })
    ∧ (0 < line_number → lines ≠ [] → (lines.length : Int) < line_number →
      compress_function_from_source tree lines ext line_number mbd markers pic ich =
        { text := "// Target line beyond end of file."
          meta := { target_line := line_number } }) := by
  refine ⟨?_, ?_, ?_⟩
  · intro h
    rw [compress_function_from_source, if_pos h]
  · intro h he
    rw [compress_function_from_source, if_neg (by omega), if_pos he]
  · intro h hne hlen
    rw [compress_function_from_source, if_neg (by omega), if_neg hne, if_pos hlen]

/-- Witness for C8 at concrete inputs: line 0, the empty file, and line 99 of
the four-line python example each produce the corresponding diagnostic. -/
theorem C8_guard_diagnostics_witness :
    (compress_function_from_source pyClassTree pyClassLines ".py" 0 2 none true true).text =
      "// Invalid line number (must be 1-based and > 0)."
    ∧ (compress_function_from_source pyClassTree pyClassLines ".py" 0 2 none true
        true).meta.target_line = 0
    ∧ (compress_function_from_source pyClassTree [] ".py" 1 2 none true true).text =
      "// Empty source."
    ∧ (compress_function_from_source pyClassTree pyClassLines ".py" 99 2 none true
        true).text = "// Target line beyond end of file." := by
  have h1 := (C8_guard_diagnostics pyClassTree pyClassLines ".py" 0 2 none true true).1
    (by norm_num)
  have h2 := (C8_guard_diagnostics pyClassTree [] ".py" 1 2 none true true).2.1
    (by norm_num) rfl
  have h3 := (C8_guard_diagnostics pyClassTree pyClassLines ".py" 99 2 none true true).2.2
    (by norm_num) (by decide) (by norm_num [pyClassLines])
  rw [h1, h2, h3]
  refine ⟨rfl, rfl, rfl, rfl⟩

/-- C9 (amended): the guard diagnostics (invalid line number, empty source,
line beyond end of file) are produced before language resolution, so they
carry no `meta.language` and use the hard-coded `//` prefix even when the
file extension resolves to a supported language; the unsupported-extension
diagnostic likewise carries no language; only the function-not-found and
target-not-found diagnostics carry `meta.language` and the resolved
language's comment prefix. -/
theorem C9_diagnostic_language_meta (tree : Node) (lines : List String)
    (ext lang_key : String) (ns : NodeSet) (line_number : Int) (mbd : Nat)
    (pic ich : Bool) :
    (line_number ≤ 0 →
      (compress_function_from_source tree lines ext line_number mbd none pic ich).meta.language
        = none)
    ∧ (0 < line_number → lines = [] →
      (compress_function_from_source tree lines ext line_number mbd none pic ich).meta.language
        = none)
    ∧ (0 < line_number → lines ≠ [] → (lines.length : Int) < line_number →
      (compress_function_from_source tree lines ext line_number mbd none pic ich).meta.language
        = none)
    ∧ (0 < line_number → lines ≠ [] → ¬ ((lines.length : Int) < line_number) →
      detect_nodeset ext = none →
      compress_function_from_source tree lines ext line_number mbd none pic ich =
        { text := "// Unsupported file extension: " ++ ext
          meta := { target_line := line_number } })
    ∧ (0 < line_number → lines ≠ [] → ¬ ((lines.length : Int) < line_number) →
      detect_nodeset ext = some (lang_key, ns) →
      find_function_node_path ns line_number.toNat tree [] = none →
      compress_function_from_source tree lines ext line_number mbd none pic ich =
        { text := ns.line_comment_tok ++ " Function not found."
          meta := { language := some lang_key, target_line := line_number } })
    ∧ (∀ func_node : Node, ∀ fanc : List Node,
      0 < line_number → lines ≠ [] → ¬ ((lines.length : Int) < line_number) →
      detect_nodeset ext = some (lang_key, ns) →
      find_function_node_path ns line_number.toNat tree [] = some (func_node, fanc) →
      find_target_node_path line_number.toNat func_node fanc = none →
      compress_function_from_source tree lines ext line_number mbd none pic ich =
        { text := ns.line_comment_tok ++ " Target line not found in function."
          meta := { language := some lang_key
                    function_lines := some (func_node.startLine + 1, func_node.endLine + 1)
                    target_line := line_number } }) := by
  refine ⟨?_, ?_, ?_, ?_, ?_, ?_⟩
  · intro h
    rw [compress_function_from_source, if_pos h]
  · intro h he
    rw [compress_function_from_source, if_neg (by omega), if_pos he]
  · intro h hne hlen
    rw [compress_function_from_source, if_neg (by omega), if_neg hne, if_pos hlen]
  · intro h hne hlen hd
    rw [compress_function_from_source, if_neg (by omega), if_neg hne, if_neg hlen, hd]
  · intro h hne hlen hd hf
    rw [compress_function_from_source, if_neg (by omega), if_neg hne, if_neg hlen, hd]
    dsimp only
    rw [hf]
    simp [resolve_line_comment]
  · intro func_node fanc h hne hlen hd hf ht
    rw [compress_function_from_source, if_neg (by omega), if_neg hne, if_neg hlen, hd]
    dsimp only
    rw [hf]
    dsimp only
    rw [ht]
    simp [resolve_line_comment]

/-- Counterexample for C9 as stated: for a `.py` input (a supported
language), the invalid-line diagnostic carries no `meta.language` and uses
the hard-coded `//` prefix rather than python's `#`. -/
theorem C9_diagnostic_language_meta_counterexample :
    detect_language ".py" = some "python"
    ∧ (compress_function_from_source pyClassTree pyClassLines ".py" 0 2 none true
        true).meta.language = none
    ∧ (compress_function_from_source pyClassTree pyClassLines ".py" 0 2 none true
        true).text = "// Invalid line number (must be 1-based and > 0)."
    ∧ pythonNodeSet.line_comment_tok = "#" := by
  refine ⟨rfl, rfl, rfl, rfl⟩

/-- Witness for C9 (amended) at concrete inputs: an unsupported extension,
and the function-not-found diagnostic for a python input. -/
theorem C9_diagnostic_language_meta_witness :
    (compress_function_from_source pyClassTree pyClassLines ".zig" 1 2 none true true).text =
      "// Unsupported file extension: .zig"
    ∧ (compress_function_from_source pyClassTree pyClassLines ".py" 1 2 none true true).text =
      "# Function not found."
    ∧ (compress_function_from_source pyClassTree pyClassLines ".py" 1 2 none true
        true).meta.language = some "python" := by
  have h1 := (C9_diagnostic_language_meta pyClassTree pyClassLines ".zig" "python"
      pythonNodeSet 1 2 true true).2.2.2.1 (by norm_num) (by decide)
      (by norm_num [pyClassLines]) rfl
  have h2 := (C9_diagnostic_language_meta pyClassTree pyClassLines ".py" "python"
      pythonNodeSet 1 2 true true).2.2.2.2.1 (by norm_num) (by decide)
      (by norm_num [pyClassLines]) rfl rfl
  rw [h1, h2]
  refine ⟨rfl, rfl, rfl⟩

theorem mem_insert_sorted_str {x a : String} {l : List String} :
    x ∈ insert_sorted_str a l ↔ x = a ∨ x ∈ l := by
  induction l with
  | nil => simp [insert_sorted_str]
  | cons y ys ih =>
    rw [insert_sorted_str]
    by_cases h1 : str_lt a y = true
    · rw [if_pos h1]
      simp
    · rw [if_neg h1]
      by_cases h2 : a = y
      · rw [if_pos h2]
        subst h2
        simp
      · rw [if_neg h2]
        simp only [List.mem_cons, ih]
        tauto

theorem mem_sorted_set_str {x : String} {l : List String} :
    x ∈ sorted_set_str l ↔ x ∈ l := by
  induction l with
  | nil => simp [sorted_set_str]
  | cons a as ih =>
    show x ∈ insert_sorted_str a (sorted_set_str as) ↔ _
    rw [mem_insert_sorted_str, ih]
    simp

theorem slice_pass_fr_sub (ns : NodeSet) (lang : String) (ich : Bool)
    (regions : List (Node × List Node)) (st : SliceSt) (x : String) (hx : x ∈ st.fr) :
    x ∈ (slice_pass ns lang ich regions st).1.fr := by
  simp only [slice_pass]
  exact List.mem_append.2 (Or.inl hx)

theorem slice_pass_fw_sub (ns : NodeSet) (lang : String) (ich : Bool)
    (regions : List (Node × List Node)) (st : SliceSt) (x : String) (hx : x ∈ st.fw) :
    x ∈ (slice_pass ns lang ich regions st).1.fw := by
  simp only [slice_pass]
  exact List.mem_append.2 (Or.inl hx)

theorem slice_loop_fr_sub (ns : NodeSet) (lang : String) (ich : Bool)
    (regions : List (Node × List Node)) :
    ∀ (fuel : Nat) (st : SliceSt) (x : String),
      x ∈ st.fr → x ∈ (slice_loop ns lang ich regions fuel st).fr := by
  intro fuel
  induction fuel with
  | zero => intro st x hx; rw [slice_loop]; exact hx
  | succ fuel ih =>
    intro st x hx
    rw [slice_loop]
    split
    · dsimp only
      split
      · exact ih _ x (slice_pass_fr_sub ns lang ich regions st x hx)
      · exact slice_pass_fr_sub ns lang ich regions st x hx
    · exact hx

theorem slice_loop_fw_sub (ns : NodeSet) (lang : String) (ich : Bool)
    (regions : List (Node × List Node)) :
    ∀ (fuel : Nat) (st : SliceSt) (x : String),
      x ∈ st.fw → x ∈ (slice_loop ns lang ich regions fuel st).fw := by
  intro fuel
  induction fuel with
  | zero => intro st x hx; rw [slice_loop]; exact hx
  | succ fuel ih =>
    intro st x hx
    rw [slice_loop]
    split
    · dsimp only
      split
      · exact ih _ x (slice_pass_fw_sub ns lang ich regions st x hx)
      · exact slice_pass_fw_sub ns lang ich regions st x hx
    · exact hx

theorem split_reads_writes_cover (ns : NodeSet) (lang : String) (root : Node) (x : String)
    (hx : x ∈ collect_idents_in_node ns root) :
    x ∈ (split_reads_writes ns lang root).1 ∨ x ∈ (split_reads_writes ns lang root).2 := by
  rw [split_reads_writes]
  dsimp only
  by_cases hw : x ∈ (srw_node ns lang root ([], [])).2
  · exact Or.inr hw
  · left
    refine List.mem_append.2 (Or.inr ?_)
    refine List.mem_filter.2 ⟨hx, ?_⟩
    simp only [decide_eq_true_iff]
    intro hcon
    exact hw (contains_mem_str.1 hcon)

theorem compress_main_seed_sub (ns : NodeSet) (lang_key line_comment : String)
    (lines : List String) (line_number : Int) (func_node target_node : Node)
    (tanc : List Node) (mbd : Nat) (pic ich : Bool)
    (seed reads writes : List String)
    (h : (compress_main ns lang_key line_comment lines line_number func_node target_node
        tanc mbd pic ich).meta.identifiers = some (seed, reads, writes)) :
    ∀ y ∈ seed, y ∈ reads ∨ y ∈ writes := by
  rw [compress_main] at h
  dsimp only at h
  rw [Option.some_inj, Prod.mk.injEq, Prod.mk.injEq] at h
  obtain ⟨hseed, hreads, hwrites⟩ := h
  intro y hy
  rw [← hseed] at hy
  rw [mem_sorted_set_str] at hy
  rcases List.mem_append.1 hy with h1 | h1
  · left
    rw [← hreads, mem_sorted_set_str]
    exact slice_loop_fr_sub ns lang_key ich _ mbd _ y h1
  · right
    rw [← hwrites, mem_sorted_set_str]
    exact slice_loop_fw_sub ns lang_key ich _ mbd _ y h1

/-- C4: every identifier collected from a subtree appears in
`reads ∪ writes` of `split_reads_writes` (the unclassified fallback makes
reads a superset of the collected identifiers minus writes); every
identifier of `meta.identifiers.seed` appears in
`meta.identifiers.reads ∪ meta.identifiers.writes`; and reads and writes
can overlap (witnessed by `x = x`). -/
theorem C4_identifier_cover (ns : NodeSet) (lang : String) (root : Node) (x : String)
    (tree : Node) (lines : List String) (ext : String) (line_number : Int) (mbd : Nat)
    (markers : Option String) (pic ich : Bool) (seed reads writes : List String) :
    (x ∈ collect_idents_in_node ns root →
      x ∈ (split_reads_writes ns lang root).1 ∨ x ∈ (split_reads_writes ns lang root).2)
    ∧ ((compress_function_from_source tree lines ext line_number mbd markers pic
        ich).meta.identifiers = some (seed, reads, writes) →
        ∀ y ∈ seed, y ∈ reads ∨ y ∈ writes)
    ∧ ("x" ∈ (split_reads_writes pythonNodeSet "python" pySelfAssign).1
       ∧ "x" ∈ (split_reads_writes pythonNodeSet "python" pySelfAssign).2) := by
  refine ⟨split_reads_writes_cover ns lang root x, ?_, by decide, by decide⟩
  intro h
  rw [compress_function_from_source] at h
  by_cases h1 : line_number ≤ 0
  · rw [if_pos h1] at h
    simp at h
  rw [if_neg h1] at h
  by_cases h2 : lines = []
  · rw [if_pos h2] at h
    simp at h
  rw [if_neg h2] at h
  by_cases h3 : (lines.length : Int) < line_number
  · rw [if_pos h3] at h
    simp at h
  rw [if_neg h3] at h
  match hd : detect_nodeset ext with
  | none =>
    rw [hd] at h
    simp at h
  | some (lk, ns2) =>
    rw [hd] at h
    dsimp only at h
    match hf : find_function_node_path ns2 line_number.toNat tree [] with
    | none =>
      rw [hf] at h
      simp at h
    | some (fn, fanc) =>
      rw [hf] at h
      dsimp only at h
      match ht : find_target_node_path line_number.toNat fn fanc with
      | none =>
        rw [ht] at h
        simp at h
      | some (tn, tanc) =>
        rw [ht] at h
        dsimp only at h
        exact compress_main_seed_sub _ _ _ _ _ _ _ _ _ _ _ seed reads writes h

/-- Witness for C4 at the dependency-chain example: the seed identifier `a`
appears among the reported reads. -/
theorem C4_identifier_cover_witness :
    "a" ∈ (["a", "b", "c"] : List String) ∨ "a" ∈ (["a", "b"] : List String) :=
  (C4_identifier_cover pythonNodeSet "python" pyChainTree "a" pyChainTree pyChainLines
    ".py" 6 2 none true true ["a"] ["a", "b", "c"] ["a", "b"]).2.1 rfl "a"
    (List.mem_singleton.2 rfl)

theorem slice_pass_passes (ns : NodeSet) (lang : String) (ich : Bool)
    (regions : List (Node × List Node)) (st : SliceSt) :
    (slice_pass ns lang ich regions st).1.passes = st.passes + 1 := by
  simp only [slice_pass]

theorem slice_loop_passes_le (ns : NodeSet) (lang : String) (ich : Bool)
    (regions : List (Node × List Node)) :
    ∀ (fuel : Nat) (st : SliceSt),
      (slice_loop ns lang ich regions fuel st).passes ≤ st.passes + fuel := by
  intro fuel
  induction fuel with
  | zero => intro st; rw [slice_loop]; omega
  | succ fuel ih =>
    intro st
    rw [slice_loop]
    split
    · dsimp only
      split
      · have h1 := ih (slice_pass ns lang ich regions st).1
        rw [slice_pass_passes] at h1
        omega
      · rw [slice_pass_passes]
        omega
    · omega

/-- C5: the backward-slicing loop performs at most `max_backward_depth`
passes (the `passes` counter grows by one per pass and the fuel bounds it);
a pass that marks no new statement ends the loop immediately; and in the
four-step dependency chain `d = 1; c = d; b = c; a = b; return a` sliced at
the return with `max_backward_depth = 2`, the statement `c = d` — reachable
only through the identifier `c`, three dependency hops from the seed — is
not part of any reported block. -/
theorem C5_bounded_slicing (ns : NodeSet) (lang : String) (ich : Bool)
    (regions : List (Node × List Node)) (fuel : Nat) (st : SliceSt) :
    ((slice_loop ns lang ich regions fuel st).passes ≤ st.passes + fuel)
    ∧ ((st.fr.filter (fun x => ¬ st.sr.contains x) ≠ [] ∨
        st.fw.filter (fun x => ¬ st.sw.contains x) ≠ []) →
       (slice_pass ns lang ich regions st).2 = false →
       slice_loop ns lang ich regions (fuel + 1) st = (slice_pass ns lang ich regions st).1)
    ∧ ((compress_function_from_source pyChainTree pyChainLines ".py" 6 2 none true
        true).meta.blocks = some [(4, 6)]
       ∧ ∀ p ∈ [((4 : Nat), (6 : Nat))], ¬ (p.1 ≤ 3 ∧ 3 ≤ p.2)) := by
  refine ⟨slice_loop_passes_le ns lang ich regions fuel st, ?_, rfl, by decide⟩
  intro hcond hm
  rw [slice_loop, if_pos hcond]
  dsimp only
  simp only [hm, Bool.false_eq_true, if_false]

/-- Witness for C5 at a concrete state: with a non-empty unexpanded frontier
and no candidate regions, the loop stops after exactly one pass. -/
theorem C5_bounded_slicing_witness :
    slice_loop pythonNodeSet "python" true [] 1 ⟨[], ["z"], [], [], [], 0⟩ =
      (slice_pass pythonNodeSet "python" true [] ⟨[], ["z"], [], [], [], 0⟩).1 :=
  (C5_bounded_slicing pythonNodeSet "python" true [] 0
    ⟨[], ["z"], [], [], [], 0⟩).2.1 (Or.inl (by decide)) rfl

theorem mem_insert_sorted_nat {x a : Nat} {l : List Nat} :
    x ∈ insert_sorted_nat a l ↔ x = a ∨ x ∈ l := by
  induction l with
  | nil => simp [insert_sorted_nat]
  | cons y ys ih =>
    rw [insert_sorted_nat]
    by_cases h1 : a < y
    · rw [if_pos h1]
      simp
    · rw [if_neg h1]
      by_cases h2 : a = y
      · rw [if_pos h2]
        subst h2
        simp
      · rw [if_neg h2]
        simp only [List.mem_cons, ih]
        tauto

theorem sorted_insert_sorted_nat {a : Nat} {l : List Nat}
    (h : List.Sorted (· < ·) l) : List.Sorted (· < ·) (insert_sorted_nat a l) := by
  induction l with
  | nil => simp [insert_sorted_nat]
  | cons y ys ih =>
    rw [List.sorted_cons] at h
    rw [insert_sorted_nat]
    by_cases h1 : a < y
    · rw [if_pos h1]
      rw [List.sorted_cons]
      refine ⟨?_, List.sorted_cons.2 h⟩
      intro b hb
      rcases List.mem_cons.1 hb with h2 | h2
      · subst h2; exact h1
      · exact lt_trans h1 (h.1 b h2)
    · rw [if_neg h1]
      by_cases h2 : a = y
      · rw [if_pos h2]
        exact List.sorted_cons.2 h
      · rw [if_neg h2]
        rw [List.sorted_cons]
        refine ⟨?_, ih h.2⟩
        intro b hb
        rcases mem_insert_sorted_nat.1 hb with h3 | h3
        · subst h3
          omega
        · exact h.1 b h3

theorem sorted_sorted_set_nat (l : List Nat) : List.Sorted (· < ·) (sorted_set_nat l) := by
  induction l with
  | nil => simp [sorted_set_nat]
  | cons a as ih => exact sorted_insert_sorted_nat ih

theorem merge_go_head (start prev : Nat) (rest : List Nat) :
    ∃ b tl, merge_go start prev rest = (start, b) :: tl ∧ prev ≤ b := by
  induction rest generalizing start prev with
  | nil => exact ⟨prev, [], rfl, le_refl _⟩
  | cons j rest ih =>
    rw [merge_go]
    by_cases h : j = prev + 1
    · rw [if_pos h]
      rcases ih start j with ⟨b, tl, heq, hb⟩
      exact ⟨b, tl, heq, by omega⟩
    · rw [if_neg h]
      exact ⟨prev, merge_go j j rest, rfl, le_refl _⟩

theorem merge_go_wf (rest : List Nat) :
    ∀ start prev : Nat, start ≤ prev → List.Sorted (· < ·) (prev :: rest) →
      ∀ p ∈ merge_go start prev rest, start ≤ p.1 ∧ p.1 ≤ p.2 := by
  induction rest with
  | nil =>
    intro start prev hsp _ p hp
    rw [merge_go] at hp
    rcases List.mem_singleton.1 hp with rfl
    exact ⟨le_refl _, hsp⟩
  | cons j rest ih =>
    intro start prev hsp hsort p hp
    rw [List.sorted_cons] at hsort
    have hpj : prev < j := hsort.1 j (List.mem_cons_self _ _)
    rw [merge_go] at hp
    by_cases h : j = prev + 1
    · rw [if_pos h] at hp
      exact ih start j (by omega) hsort.2 p hp
    · rw [if_neg h] at hp
      rcases List.mem_cons.1 hp with h2 | h2
      · subst h2
        exact ⟨le_refl _, hsp⟩
      · have := ih j j (le_refl _) hsort.2 p h2
        exact ⟨by omega, this.2⟩

theorem merge_go_chain (rest : List Nat) :
    ∀ start prev : Nat, start ≤ prev → List.Sorted (· < ·) (prev :: rest) →
      List.Chain' (fun p q : Nat × Nat => p.2 + 1 < q.1) (merge_go start prev rest) := by
  induction rest with
  | nil =>
    intro start prev _ _
    rw [merge_go]
    simp
  | cons j rest ih =>
    intro start prev hsp hsort
    rw [List.sorted_cons] at hsort
    have hpj : prev < j := hsort.1 j (List.mem_cons_self _ _)
    rw [merge_go]
    by_cases h : j = prev + 1
    · rw [if_pos h]
      exact ih start j (by omega) hsort.2
    · rw [if_neg h]
      rw [List.chain'_cons']
      constructor
      · intro q hq
        rcases merge_go_head j j rest with ⟨b, tl, heq, _⟩
        rw [heq] at hq
        simp at hq
        subst hq
        simp
        omega
      · exact ih j j (le_refl _) hsort.2

theorem merge_blocks_wf {l : List Nat} (h : List.Sorted (· < ·) l) :
    ∀ p ∈ merge_blocks l, p.1 ≤ p.2 := by
  cases l with
  | nil => intro p hp; simp [merge_blocks] at hp
  | cons x xs =>
    intro p hp
    exact (merge_go_wf xs x x (le_refl _) h p hp).2

theorem merge_blocks_chain {l : List Nat} (h : List.Sorted (· < ·) l) :
    List.Chain' (fun p q : Nat × Nat => p.2 + 1 < q.1) (merge_blocks l) := by
  cases l with
  | nil => simp [merge_blocks]
  | cons x xs => exact merge_go_chain xs x x (le_refl _) h

theorem emit_skipped_sub (lines : List String) (lk lc : String) (pic : Bool)
    (out : List String) (lo hi : Nat) (x : String) (hx : x ∈ out) :
    x ∈ emit_skipped_region lines lk lc pic out lo hi := by
  rw [emit_skipped_region]
  split
  · exact hx
  · dsimp only
    split
    · exact hx
    · split
      · exact List.mem_append.2 (Or.inl (List.mem_append.2 (Or.inl hx)))
      · exact List.mem_append.2 (Or.inl hx)

theorem emit_blocks_sub (lines : List String) (lk lc : String) (pic : Bool)
    (co : List Nat) :
    ∀ (blocks : List (Nat × Nat)) (cursor : Nat) (out : List String) (x : String),
      x ∈ out → x ∈ (emit_blocks lines lk lc pic co blocks cursor out).1 := by
  intro blocks
  induction blocks with
  | nil => intro cursor out x hx; rw [emit_blocks]; exact hx
  | cons p rest ih =>
    intro cursor out x hx
    rcases p with ⟨a, b⟩
    rw [emit_blocks]
    split
    · exact ih cursor out x hx
    · dsimp only
      apply ih
      refine List.mem_append.2 (Or.inl ?_)
      exact emit_skipped_sub lines lk lc pic out cursor (max a cursor) x hx

theorem mem_emit_block_lines (lines : List String) (co : List Nat) (start e i : Nat)
    (h1 : start ≤ i) (h2 : i ≤ e)
    (h3 : ¬ (py_strip (lines.getD i "") = "") ∨ i ∈ co) :
    lines.getD i "" ∈ emit_block_lines lines co start e := by
  rw [emit_block_lines]
  apply List.mem_filterMap.2
  refine ⟨i, ?_, ?_⟩
  · rw [List.mem_range'_1]
    omega
  · rw [if_pos h3]

theorem blocks_tail_lower :
    ∀ (rest : List (Nat × Nat)) (b : Nat),
      List.Chain' (fun p q : Nat × Nat => p.2 + 1 < q.1) rest →
      (∀ p ∈ rest, p.1 ≤ p.2) →
      (∀ q ∈ rest.head?, b + 1 < q.1) →
      ∀ p ∈ rest, b + 1 ≤ p.1 := by
  intro rest
  induction rest with
  | nil => intro b _ _ _ p hp; simp at hp
  | cons q rest ih =>
    intro b hchain hwf hhead p hp
    have hq : b + 1 < q.1 := hhead q rfl
    rcases List.mem_cons.1 hp with h2 | h2
    · subst h2; omega
    · rw [List.chain'_cons'] at hchain
      have := ih q.2 hchain.2 (fun r hr => hwf r (List.mem_cons.2 (Or.inr hr)))
        hchain.1 p h2
      have hqwf := hwf q (List.mem_cons_self _ _)
      omega

theorem emit_blocks_mem (lines : List String) (lk lc : String) (pic : Bool)
    (co : List Nat) :
    ∀ (blocks : List (Nat × Nat)) (cursor : Nat) (out : List String) (i : Nat),
      (∀ p ∈ blocks, p.1 ≤ p.2) →
      List.Chain' (fun p q : Nat × Nat => p.2 + 1 < q.1) blocks →
      (∃ p ∈ blocks, p.1 ≤ i ∧ i ≤ p.2) →
      cursor ≤ i →
      (¬ (py_strip (lines.getD i "") = "") ∨ i ∈ co) →
      lines.getD i "" ∈ (emit_blocks lines lk lc pic co blocks cursor out).1 := by
  intro blocks
  induction blocks with
  | nil =>
    intro cursor out i _ _ hex _ _
    rcases hex with ⟨p, hp, _⟩
    simp at hp
  | cons hd rest ih =>
    intro cursor out i hwf hchain hex hcur hemit
    rcases hd with ⟨a, b⟩
    rw [List.chain'_cons'] at hchain
    rcases hex with ⟨p, hp, hpi⟩
    rcases List.mem_cons.1 hp with h2 | h2
    · subst h2
      rw [emit_blocks]
      have hnoskip : ¬ (a < cursor ∧ b < cursor) := by
        intro hcon
        omega
      rw [if_neg hnoskip]
      dsimp only
      apply emit_blocks_sub
      refine List.mem_append.2 (Or.inr ?_)
      refine mem_emit_block_lines lines co (max a cursor) b i ?_ hpi.2 hemit
      refine max_le hpi.1 hcur
    · rw [emit_blocks]
      have htail := blocks_tail_lower rest b hchain.2
        (fun r hr => hwf r (List.mem_cons.2 (Or.inr hr))) hchain.1 p h2
      have hpwf := hwf p hp
      split
      · exact ih cursor out i (fun r hr => hwf r (List.mem_cons.2 (Or.inr hr)))
          hchain.2 ⟨p, h2, hpi⟩ hcur hemit
      · dsimp only
        exact ih (b + 1) _ i (fun r hr => hwf r (List.mem_cons.2 (Or.inr hr)))
          hchain.2 ⟨p, h2, hpi⟩ (by omega) hemit

theorem header_scan_acc_sub (lines : List String) (f_end : Nat) :
    ∀ (fuel cursor : Nat) (acc : List String) (x : String),
      x ∈ acc → x ∈ (header_scan lines f_end fuel cursor acc).1 := by
  intro fuel
  induction fuel with
  | zero => intro cursor acc x hx; rw [header_scan]; exact hx
  | succ fuel ih =>
    intro cursor acc x hx
    rw [header_scan]
    split
    · dsimp only
      split
      · exact List.mem_append.2 (Or.inl hx)
      · exact ih _ _ x (List.mem_append.2 (Or.inl hx))
    · exact hx

theorem header_scan_mem (lines : List String) (f_end : Nat) :
    ∀ (fuel cursor : Nat) (acc : List String) (i : Nat),
      cursor ≤ i → i < (header_scan lines f_end fuel cursor acc).2.1 →
      lines.getD i "" ∈ (header_scan lines f_end fuel cursor acc).1 := by
  intro fuel
  induction fuel with
  | zero =>
    intro cursor acc i h1 h2
    rw [header_scan] at h2 ⊢
    dsimp only at h2
    omega
  | succ fuel ih =>
    intro cursor acc i h1 h2
    rw [header_scan] at h2 ⊢
    by_cases hc : cursor ≤ f_end
    · rw [if_pos hc] at h2 ⊢
      dsimp only at h2 ⊢
      by_cases hb : str_contains_char (lines.getD cursor "") '\x7b' = true
      · rw [if_pos hb] at h2 ⊢
        dsimp only at h2
        have : i = cursor := by omega
        subst this
        simp
      · rw [if_neg hb] at h2 ⊢
        by_cases hi : i = cursor
        · subst hi
          apply header_scan_acc_sub
          simp
        · exact ih (cursor + 1) _ i (by omega) h2
    · rw [if_neg hc] at h2 ⊢
      dsimp only at h2
      omega

theorem cmh_mem (ns : NodeSet) (lines : List String) (f_start f_end i : Nat)
    (h1 : f_start ≤ i) (h2 : i < (collect_multiline_header ns lines f_start f_end).2) :
    lines.getD i "" ∈ (collect_multiline_header ns lines f_start f_end).1 := by
  rw [collect_multiline_header] at h2 ⊢
  by_cases hb : ns.closing_is_brace = true
  · rw [if_pos hb] at h2 ⊢
    dsimp only at h2 ⊢
    split at h2
    · rename_i hcond
      split at h2
      · rename_i hbrace
        rw [if_pos hcond, if_pos hbrace]
        dsimp only at h2
        by_cases hi : i < (header_scan lines f_end (f_end + 1 - f_start) f_start []).2.1
        · exact List.mem_append.2 (Or.inl (header_scan_mem lines f_end _ f_start [] i h1 hi))
        · have : i = (header_scan lines f_end (f_end + 1 - f_start) f_start []).2.1 := by
            omega
          subst this
          exact List.mem_append.2 (Or.inr (List.mem_singleton.2 rfl))
      · rename_i hbrace
        rw [if_pos hcond, if_neg hbrace]
        exact header_scan_mem lines f_end _ f_start [] i h1 h2
    · rename_i hcond
      rw [if_neg hcond]
      dsimp only at h2
      exact header_scan_mem lines f_end _ f_start [] i h1 h2
  · rw [if_neg hb] at h2 ⊢
    dsimp only at h2
    have : i = f_start := by omega
    subst this
    simp

mutual
theorem mark_added_sub (ns : NodeSet) (lang : String) (ich : Bool) (idset : List String) :
    ∀ (n : Node) (anc : List Node) (st : MarkSt) (i : Nat),
      i ∈ st.added → i ∈ (mark_if_references_ids ns lang ich idset n anc st).added := by
  intro n anc st i hi
  cases n with
  | mk k s e t ch =>
    rw [mark_if_references_ids]
    dsimp only
    apply mark_list_added_sub
    split
    · exact List.mem_append.2 (Or.inl (List.mem_append.2 (Or.inl hi)))
    · exact hi
theorem mark_list_added_sub (ns : NodeSet) (lang : String) (ich : Bool)
    (idset : List String) :
    ∀ (l : List Node) (anc : List Node) (st : MarkSt) (i : Nat),
      i ∈ st.added → i ∈ (mark_list ns lang ich idset l anc st).added := by
  intro l anc st i hi
  cases l with
  | nil => rw [mark_list]; exact hi
  | cons c cs =>
    rw [mark_list]
    exact mark_added_sub ns lang ich idset c anc _ i
      (mark_list_added_sub ns lang ich idset cs anc st i hi)
end

mutual
theorem ensure_rel_sub (ns : NodeSet) :
    ∀ (n : Node) (rel : List Nat) (i : Nat),
      i ∈ rel → i ∈ ensure_control_headers ns n rel := by
  intro n rel i hi
  cases n with
  | mk k s e t ch =>
    rw [ensure_control_headers]
    dsimp only
    apply ensure_list_rel_sub
    split
    · split
      · exact hi
      · split
        · exact List.mem_append.2 (Or.inl hi)
        · exact hi
    · exact hi
theorem ensure_list_rel_sub (ns : NodeSet) :
    ∀ (l : List Node) (rel : List Nat) (i : Nat),
      i ∈ rel → i ∈ ensure_list ns l rel := by
  intro l rel i hi
  cases l with
  | nil => rw [ensure_list]; exact hi
  | cons c cs =>
    rw [ensure_list]
    exact ensure_rel_sub ns c _ i (ensure_list_rel_sub ns cs rel i hi)
end

theorem compress_eq_main (tree : Node) (lines : List String) (ext : String)
    (line_number : Int) (mbd : Nat) (markers : Option String) (pic ich : Bool)
    (lang_key : String) (ns : NodeSet) (func_node target_node : Node)
    (fanc tanc : List Node)
    (h1 : ¬ line_number ≤ 0) (h2 : lines ≠ [])
    (h3 : ¬ ((lines.length : Int) < line_number))
    (hd : detect_nodeset ext = some (lang_key, ns))
    (hf : find_function_node_path ns line_number.toNat tree [] = some (func_node, fanc))
    (ht : find_target_node_path line_number.toNat func_node fanc = some (target_node, tanc)) :
    compress_function_from_source tree lines ext line_number mbd markers pic ich =
      compress_main ns lang_key (resolve_line_comment markers ns) lines line_number
        func_node target_node tanc mbd pic ich := by
  rw [compress_function_from_source, if_neg h1, if_neg h2, if_neg h3, hd]
  dsimp only
  rw [hf]
  dsimp only
  rw [ht]

theorem emit_body_mem (ns : NodeSet) (lang_key lc : String) (lines : List String)
    (pic : Bool) (co : List Nat) (bl : List (Nat × Nat)) (f_start f_end i : Nat)
    (hwf : ∀ p ∈ bl, p.1 ≤ p.2)
    (hchain : List.Chain' (fun p q : Nat × Nat => p.2 + 1 < q.1) bl)
    (hcov : ∃ p ∈ bl, p.1 ≤ i ∧ i ≤ p.2)
    (hstart : f_start ≤ i)
    (hemit : ¬ (py_strip (lines.getD i "") = "") ∨ i ∈ co) :
    lines.getD i "" ∈ emit_body ns lang_key lc lines pic co bl f_start f_end := by
  rw [emit_body]
  apply emit_skipped_sub
  by_cases hcur : (collect_multiline_header ns lines f_start f_end).2 ≤ i
  · exact emit_blocks_mem lines lang_key lc pic co bl _ _ i hwf hchain hcov hcur hemit
  · apply emit_blocks_sub
    exact cmh_mem ns lines f_start f_end i hstart (by omega)

theorem count_le_count_map (l : List String) (f : String → String) (x : String) :
    l.count x ≤ (l.map f).count (f x) := by
  induction l with
  | nil => simp
  | cons a as ih =>
    rw [List.map_cons, List.count_cons, List.count_cons]
    have hle : (if (a == x) = true then 1 else 0) ≤
        (if (f a == f x) = true then (1 : Nat) else 0) := by
      by_cases h : a = x
      · subst h
        simp
      · simp only [beq_iff_eq, if_neg h]
        exact Nat.zero_le _
    omega

theorem dedent_minimum_count (l : List String) (x : String) :
    ∃ y, l.count x ≤ (dedent_minimum l).count y := by
  rw [dedent_minimum]
  split
  · exact ⟨x, le_refl _⟩
  · dsimp only
    split
    · exact ⟨x, le_refl _⟩
    · exact ⟨_, count_le_count_map l _ x⟩

theorem compress_main_blocks (ns : NodeSet) (lang_key lc : String)
    (lines : List String) (line_number : Int) (func_node target_node : Node)
    (tanc : List Node) (mbd : Nat) (pic ich : Bool) :
    (compress_main ns lang_key lc lines line_number func_node target_node tanc mbd pic
      ich).meta.blocks =
      some ((merge_blocks (sorted_set_nat (compress_relevant ns lang_key lines func_node
        target_node tanc mbd ich))).map (fun p => (p.1 + 1, p.2 + 1))) := rfl

theorem compress_main_text (ns : NodeSet) (lang_key lc : String)
    (lines : List String) (line_number : Int) (func_node target_node : Node)
    (tanc : List Node) (mbd : Nat) (pic ich : Bool) :
    (compress_main ns lang_key lc lines line_number func_node target_node tanc mbd pic
      ich).text =
      String.intercalate "\n" (dedent_minimum (assemble_output ns lang_key lc lines pic
        (compute_comment_lines lang_key lines)
        (merge_blocks (sorted_set_nat (compress_relevant ns lang_key lines func_node
          target_node tanc mbd ich))) func_node.startLine func_node.endLine)) := rfl

/-- C10: for brace-closed languages, output assembly appends the function's
final source line unconditionally after all blocks, so it is the last line
of the assembled output; and when some reported block includes the
function's closing (non-blank) line, that line occurs at least twice in the
assembled output (and a line of the dedented final text occurs at least
twice as well). -/
theorem C10_closing_line_duplicated (tree : Node) (lines : List String)
    (ext lang_key : String) (ns : NodeSet) (line_number : Int) (mbd : Nat)
    (markers : Option String) (pic ich : Bool) (func_node target_node : Node)
    (fanc tanc : List Node)
    (h1 : ¬ line_number ≤ 0) (h2 : lines ≠ [])
    (h3 : ¬ ((lines.length : Int) < line_number))
    (hd : detect_nodeset ext = some (lang_key, ns))
    (hf : find_function_node_path ns line_number.toNat tree [] = some (func_node, fanc))
    (ht : find_target_node_path line_number.toNat func_node fanc = some (target_node, tanc))
    (hbrace : ns.closing_is_brace = true) :
    ∃ bl : List (Nat × Nat),
      (compress_function_from_source tree lines ext line_number mbd markers pic
        ich).meta.blocks = some (bl.map (fun p => (p.1 + 1, p.2 + 1)))
      ∧ (compress_function_from_source tree lines ext line_number mbd markers pic
          ich).text
        = String.intercalate "\n" (dedent_minimum (assemble_output ns lang_key
            (resolve_line_comment markers ns) lines pic
            (compute_comment_lines lang_key lines) bl
            func_node.startLine func_node.endLine))
      ∧ (assemble_output ns lang_key (resolve_line_comment markers ns) lines pic
          (compute_comment_lines lang_key lines) bl
          func_node.startLine func_node.endLine).getLast?
        = some (lines.getD func_node.endLine "")
      ∧ ((∃ p ∈ bl, p.1 ≤ func_node.endLine ∧ func_node.endLine ≤ p.2) →
         ¬ (py_strip (lines.getD func_node.endLine "") = "") →
         2 ≤ (assemble_output ns lang_key (resolve_line_comment markers ns) lines pic
            (compute_comment_lines lang_key lines) bl
            func_node.startLine func_node.endLine).count (lines.getD func_node.endLine "")
         ∧ ∃ y, 2 ≤ (dedent_minimum (assemble_output ns lang_key
            (resolve_line_comment markers ns) lines pic
            (compute_comment_lines lang_key lines) bl
            func_node.startLine func_node.endLine)).count y) := by
  have heq := compress_eq_main tree lines ext line_number mbd markers pic ich lang_key ns
    func_node target_node fanc tanc h1 h2 h3 hd hf ht
  refine ⟨merge_blocks (sorted_set_nat (compress_relevant ns lang_key lines func_node
    target_node tanc mbd ich)), ?_, ?_, ?_, ?_⟩
  · rw [heq, compress_main_blocks]
  · rw [heq, compress_main_text]
  · rw [assemble_output, if_pos hbrace]
    exact List.getLast?_concat _
  · intro hcov hnb
    have hcovfn := (ffnp_spec ns line_number.toNat tree [] func_node fanc hf).1
    rw [covers_fn_iff] at hcovfn
    have hse : func_node.startLine ≤ func_node.endLine := by
      have ha := hcovfn.2.1
      have hb := hcovfn.2.2
      omega
    have hmem : lines.getD func_node.endLine "" ∈ emit_body ns lang_key
        (resolve_line_comment markers ns) lines pic (compute_comment_lines lang_key lines)
        (merge_blocks (sorted_set_nat (compress_relevant ns lang_key lines func_node
          target_node tanc mbd ich))) func_node.startLine func_node.endLine :=
      emit_body_mem ns lang_key _ lines pic _ _ _ _ _
        (merge_blocks_wf (sorted_sorted_set_nat _))
        (merge_blocks_chain (sorted_sorted_set_nat _)) hcov hse (Or.inl hnb)
    have hcnt : 2 ≤ (assemble_output ns lang_key (resolve_line_comment markers ns) lines
        pic (compute_comment_lines lang_key lines)
        (merge_blocks (sorted_set_nat (compress_relevant ns lang_key lines func_node
          target_node tanc mbd ich)))
        func_node.startLine func_node.endLine).count (lines.getD func_node.endLine "") := by
      rw [assemble_output, if_pos hbrace, List.count_append]
      have hpos : 0 < (emit_body ns lang_key (resolve_line_comment markers ns) lines pic
          (compute_comment_lines lang_key lines)
          (merge_blocks (sorted_set_nat (compress_relevant ns lang_key lines func_node
            target_node tanc mbd ich))) func_node.startLine
          func_node.endLine).count (lines.getD func_node.endLine "") :=
        List.count_pos_iff.2 hmem
      have hone : ([lines.getD func_node.endLine ""]).count
          (lines.getD func_node.endLine "") = 1 := by simp
      omega
    refine ⟨hcnt, ?_⟩
    rcases dedent_minimum_count (assemble_output ns lang_key
        (resolve_line_comment markers ns) lines pic (compute_comment_lines lang_key lines)
        (merge_blocks (sorted_set_nat (compress_relevant ns lang_key lines func_node
          target_node tanc mbd ich))) func_node.startLine func_node.endLine)
        (lines.getD func_node.endLine "") with ⟨y, hy⟩
    exact ⟨y, le_trans hcnt hy⟩

/-- Witness for C10 at the three-line cpp example targeted at the closing
brace: the brace line ends the output and occurs twice. -/
theorem C10_closing_line_duplicated_witness :
    ∃ bl : List (Nat × Nat),
      (compress_function_from_source cppRetTree cppRetLines ".cpp" 3 2 none true
        true).meta.blocks = some (bl.map (fun p => (p.1 + 1, p.2 + 1)))
      ∧ (compress_function_from_source cppRetTree cppRetLines ".cpp" 3 2 none true
          true).text
        = String.intercalate "\n" (dedent_minimum (assemble_output cppNodeSet "cpp"
            (resolve_line_comment none cppNodeSet) cppRetLines true
            (compute_comment_lines "cpp" cppRetLines) bl
            cppRetFdef.startLine cppRetFdef.endLine))
      ∧ (assemble_output cppNodeSet "cpp" (resolve_line_comment none cppNodeSet)
          cppRetLines true (compute_comment_lines "cpp" cppRetLines) bl
          cppRetFdef.startLine cppRetFdef.endLine).getLast?
        = some (cppRetLines.getD cppRetFdef.endLine "")
      ∧ ((∃ p ∈ bl, p.1 ≤ cppRetFdef.endLine ∧ cppRetFdef.endLine ≤ p.2) →
         ¬ (py_strip (cppRetLines.getD cppRetFdef.endLine "") = "") →
         2 ≤ (assemble_output cppNodeSet "cpp" (resolve_line_comment none cppNodeSet)
            cppRetLines true (compute_comment_lines "cpp" cppRetLines) bl
            cppRetFdef.startLine cppRetFdef.endLine).count
              (cppRetLines.getD cppRetFdef.endLine "")
         ∧ ∃ y, 2 ≤ (dedent_minimum (assemble_output cppNodeSet "cpp"
            (resolve_line_comment none cppNodeSet) cppRetLines true
            (compute_comment_lines "cpp" cppRetLines) bl
            cppRetFdef.startLine cppRetFdef.endLine)).count y) :=
  C10_closing_line_duplicated cppRetTree cppRetLines ".cpp" "cpp" cppNodeSet 3 2 none
    true true cppRetFdef (.mk "\x7d" 2 2 "\x7d" [])
    [cppRetTree] [cppRetBody, cppRetFdef, cppRetTree]
    (by decide) (by decide) (by decide) rfl rfl rfl rfl
